import Mathlib

/-! Hoststat: the CPU sampler, the top-5 process selection and the disk fan-out.

A shallow embedding of `psutil/cpu.go` and `handles/util.go`.

Conventions of the embedding:

* `uint64` values are natural numbers below `2 ^ 64`; subtraction wraps modulo `2 ^ 64`
  as it does in Go.
* `float64` arithmetic is carried out exactly, in `ℚ`; the conversion `float64(x)` of an
  unsigned integer is the number `x` itself.  Where a `float64` is only compared and
  copied (the CPU percentage of a process) it is an element of an arbitrary linear order.
* A call that can fail returns an `Option`; `none` is the error.
* Go's nil slice and empty slice are both the empty list.
* `time.Time` is an integer number of nanoseconds counted from the zero instant, so
  `t.IsZero()` is `t = 0`; a `time.Duration` is an integer number of nanoseconds.
-/

namespace Hoststat

/-! ## psutil/cpu.go -/

/-- The number of values of a `uint64`. -/
def uint64Size : Nat := 2 ^ 64

/-- The predicate saying that a natural number is a `uint64` value. -/
def IsUint64 (x : Nat) : Prop := x < uint64Size

instance (x : Nat) : Decidable (IsUint64 x) := by
  unfold IsUint64; exact inferInstance

/-- Go's `a - b` on `uint64` operands: the difference modulo `2 ^ 64`. -/
def subUint64 (a b : Nat) : Nat := (a + uint64Size - b) % uint64Size

/-- The constant `fastInterval = 3 * time.Second`, in nanoseconds. -/
def fastInterval : Int := 3 * 1000000000

/-- The constant `resetInterval = 1 * time.Minute`, in nanoseconds. -/
def resetInterval : Int := 60 * 1000000000

/-- The struct `CPUStat`. -/
structure CPUStat where
  Idle : Nat
  Total : Nat
  deriving DecidableEq, Repr

/-- All fields of a `CPUStat` are `uint64` values. -/
def CPUStat.WF (s : CPUStat) : Prop := IsUint64 s.Idle ∧ IsUint64 s.Total

instance (s : CPUStat) : Decidable s.WF := by
  unfold CPUStat.WF; exact inferInstance

/-- The struct `CPUDetailedStat`. -/
structure CPUDetailedStat where
  User : Nat := 0
  Nice : Nat := 0
  System : Nat := 0
  Idle : Nat := 0
  Iowait : Nat := 0
  Irq : Nat := 0
  Softirq : Nat := 0
  Steal : Nat := 0
  Guest : Nat := 0
  GuestNice : Nat := 0
  Total : Nat := 0
  deriving DecidableEq, Repr

/-- All fields of a `CPUDetailedStat` are `uint64` values. -/
def CPUDetailedStat.WF (s : CPUDetailedStat) : Prop :=
  IsUint64 s.User ∧ IsUint64 s.Nice ∧ IsUint64 s.System ∧ IsUint64 s.Idle ∧
  IsUint64 s.Iowait ∧ IsUint64 s.Irq ∧ IsUint64 s.Softirq ∧ IsUint64 s.Steal ∧
  IsUint64 s.Guest ∧ IsUint64 s.GuestNice ∧ IsUint64 s.Total

instance (s : CPUDetailedStat) : Decidable s.WF := by
  unfold CPUDetailedStat.WF; exact inferInstance

/-- The struct `CPUDetailedPercent`; a field left out of a literal is zero. -/
structure CPUDetailedPercent where
  User : ℚ := 0
  System : ℚ := 0
  Nice : ℚ := 0
  Idle : ℚ := 0
  Iowait : ℚ := 0
  Irq : ℚ := 0
  Softirq : ℚ := 0
  Steal : ℚ := 0
  deriving DecidableEq

/-- The method `GetCPUDetailedPercent`: the eight fields as a slice. -/
def CPUDetailedPercent.GetCPUDetailedPercent (c : CPUDetailedPercent) : List ℚ :=
  [c.User, c.System, c.Nice, c.Idle, c.Iowait, c.Irq, c.Softirq, c.Steal]

/-- The function `calcCPUPercent`. -/
def calcCPUPercent (prev cur : CPUStat) : ℚ :=
  let deltaIdle : ℚ := (subUint64 cur.Idle prev.Idle : Nat)
  let deltaTotal : ℚ := (subUint64 cur.Total prev.Total : Nat)
  if deltaTotal ≤ 0 then 0
  else (1 - deltaIdle / deltaTotal) * 100

/-- The function `calcCPUDetailedPercent`. -/
def calcCPUDetailedPercent (prev cur : CPUDetailedStat) : CPUDetailedPercent :=
  let deltaTotal : ℚ := (subUint64 cur.Total prev.Total : Nat)
  if deltaTotal ≤ 0 then { Idle := 100 }
  else
    { User := (subUint64 cur.User prev.User : Nat) / deltaTotal * 100
      System := (subUint64 cur.System prev.System : Nat) / deltaTotal * 100
      Nice := (subUint64 cur.Nice prev.Nice : Nat) / deltaTotal * 100
      Idle := (subUint64 cur.Idle prev.Idle : Nat) / deltaTotal * 100
      Iowait := (subUint64 cur.Iowait prev.Iowait : Nat) / deltaTotal * 100
      Irq := (subUint64 cur.Irq prev.Irq : Nat) / deltaTotal * 100
      Softirq := (subUint64 cur.Softirq prev.Softirq : Nat) / deltaTotal * 100
      Steal := (subUint64 cur.Steal prev.Steal : Nat) / deltaTotal * 100 }

/-- The struct `CPUUsageState` without its mutex: the critical sections of `GetCPUUsage`
are run one after the other. -/
structure CPUUsageState where
  lastTotalStat : Option CPUStat := none
  lastPerCPUStat : List CPUStat := []
  lastDetailStat : Option CPUDetailedStat := none
  lastSampleTime : Int := 0
  cachedTotalUsage : ℚ := 0
  cachedPerCore : List ℚ := []
  cachedDetailedPercent : CPUDetailedPercent := {}
  deriving DecidableEq

/-- What one call of `GetCPUUsage` reads from outside the sampler: the clock at entry, the
answer of `cpu.Percent(100ms, true)` should it be asked (`none` is an error), and the clock
when the sampler stores its timestamp. -/
structure UsageEnv where
  now : Int
  percent : Option (List ℚ)
  stamp : Int

/-- The three values `GetCPUUsage` returns, and whether the call asked `cpu.Percent`. -/
structure UsageResult where
  total : ℚ
  perCore : List ℚ
  detailed : List ℚ
  queried : Bool
  deriving DecidableEq

/-- The loop `for _, usage := range perCoreUsage { totalUsage += usage }`. -/
def sumUsage (perCoreUsage : List ℚ) : ℚ := perCoreUsage.foldl (fun totalUsage usage => totalUsage + usage) 0

/-- The method `GetCPUUsage`: the state after the call and what it returns. -/
def CPUUsageState.GetCPUUsage (c : CPUUsageState) (env : UsageEnv) : CPUUsageState × UsageResult :=
  if c.lastSampleTime ≠ 0 ∧ env.now - c.lastSampleTime < fastInterval then
    (c, { total := c.cachedTotalUsage, perCore := c.cachedPerCore,
          detailed := c.cachedDetailedPercent.GetCPUDetailedPercent, queried := false })
  else
    match env.percent with
    | none =>
      ({ c with lastSampleTime := env.stamp },
       { total := 0, perCore := [], detailed := [], queried := true })
    | some perCoreUsage =>
      let totalUsage : ℚ :=
        if perCoreUsage.length > 0 then sumUsage perCoreUsage / perCoreUsage.length else 0
      let detailedPercent : CPUDetailedPercent :=
        { User := totalUsage * (6 / 10)
          System := totalUsage * (3 / 10)
          Idle := 100 - totalUsage
          Iowait := totalUsage * (1 / 10) }
      ({ c with cachedTotalUsage := totalUsage, cachedPerCore := perCoreUsage,
                cachedDetailedPercent := detailedPercent, lastSampleTime := env.stamp },
       { total := totalUsage, perCore := perCoreUsage,
         detailed := detailedPercent.GetCPUDetailedPercent, queried := true })

/-! ## sort.Slice -/

/-- The inner loop of the insertion sort behind `sort.Slice`,
`for j := i; j > a && less(j, j-1); j-- { swap(j, j-1) }`: the element `x` at position `i`
moves left past every element it is `less` than.  The already sorted prefix is given from
position `i-1` down to position `a`, and so is the result. -/
def insertionStep {α : Type} (less : α → α → Bool) (x : α) : List α → List α
  | [] => [x]
  | y :: ys => if less x y then y :: insertionStep less x ys else x :: y :: ys

/-- The library call `sort.Slice(data, less)` as the insertion sort
`for i := a + 1; i < b; i++ { ... }`, which is the whole of `sort.Slice` on a slice of at
most 12 elements.  On a longer slice `sort.Slice` runs a pattern-defeating quicksort that
may order equal keys differently; the sequence of keys is the same (see
`keys_eq_of_perm_of_sorted`). -/
def sortSlice {α : Type} (less : α → α → Bool) (data : List α) : List α :=
  (data.foldl (fun sortedPart x => insertionStep less x sortedPart) []).reverse

/-! ## handles/util.go: the top-5 selectors -/

/-- The struct `ProcessInfo`; `F` stands for `float64`. -/
structure ProcessInfo (F : Type) where
  Name : String
  Pid : Int
  Percent : F
  Memory : Nat
  Cmd : String
  User : String
  deriving DecidableEq

/-- What the selectors ask of one `*process.Process`: its `Pid` and the answers of its
methods, `none` being an error.  `MemoryInfo` is the `RSS` field of the answer;
`MemoryPercent` is the value returned, whose error the code ignores. -/
structure Process (F : Type) where
  Pid : Int
  CPUPercent : Option F
  MemoryInfo : Option Nat
  MemoryPercent : F
  Name : Option String
  Cmdline : Option String
  Username : Option String

/-- The loop `for i := 1; i < len(top5); i++ { if top5[i].key < min { min = top5[i].key;
minIndex = i } }`, from index `i` on, over the entries not yet visited: the minimum and
its index. -/
def minLoop {α K : Type} [LT K] [DecidableRel (α := K) (· < ·)] (key : α → K) :
    List α → Nat → K → Nat → K × Nat
  | [], _, min, minIndex => (min, minIndex)
  | x :: xs, i, min, minIndex =>
    if key x < min then minLoop key xs (i + 1) (key x) i
    else minLoop key xs (i + 1) min minIndex

/-- The block `minIndex := 0; if len(top5) >= 5 { ...; if metric < min { continue } }`:
`none` when the candidate is skipped by `continue`, and `minIndex` otherwise. -/
def scanMin {α K : Type} [LT K] [DecidableRel (α := K) (· < ·)] (key : α → K)
    (top5 : List α) (metric : K) : Option Nat :=
  if top5.length ≥ 5 then
    match top5 with
    | [] => some 0
    | x :: xs =>
      let r := minLoop key xs 1 (key x) 0
      if metric < r.1 then none else some r.2
  else some 0

/-- The end of the loop body:
`if len(top5) == 5 { top5[minIndex] = info } else { top5 = append(top5, info) }`. -/
def place {α : Type} (top5 : List α) (minIndex : Nat) (info : α) : List α :=
  if top5.length = 5 then top5.set minIndex info else top5 ++ [info]

/-- One iteration of the loop of `loadTopCPU` over the process `p`. -/
def topCPUStep {F : Type} [LinearOrder F] (top5 : List (ProcessInfo F)) (p : Process F) :
    List (ProcessInfo F) :=
  match p.CPUPercent with
  | none => top5
  | some percent =>
    match scanMin ProcessInfo.Percent top5 percent with
    | none => top5
    | some minIndex =>
      let name := p.Name.getD "undifine"
      let cmd := p.Cmdline.getD "undifine"
      let user := p.Username.getD "undifine"
      place top5 minIndex
        { Percent := percent, Pid := p.Pid, User := user, Name := name, Cmd := cmd, Memory := 0 }

/-- The function `loadTopCPU`; the argument is the answer of `process.Processes()`. -/
def loadTopCPU {F : Type} [LinearOrder F] (processes : Option (List (Process F))) :
    List (ProcessInfo F) :=
  match processes with
  | none => []
  | some processes =>
    sortSlice (fun a b => decide (a.Percent > b.Percent)) (processes.foldl topCPUStep [])

/-- One iteration of the loop of `loadTopMem` over the process `p`. -/
def topMemStep {F : Type} (top5 : List (ProcessInfo F)) (p : Process F) :
    List (ProcessInfo F) :=
  match p.MemoryInfo with
  | none => top5
  | some memItem =>
    match scanMin ProcessInfo.Memory top5 memItem with
    | none => top5
    | some minIndex =>
      let name := p.Name.getD "undifine"
      let cmd := p.Cmdline.getD "undifine"
      let user := p.Username.getD "undifine"
      let percent := p.MemoryPercent
      place top5 minIndex
        { Percent := percent, Pid := p.Pid, User := user, Name := name, Cmd := cmd,
          Memory := memItem }

/-- The function `loadTopMem`; the argument is the answer of `process.Processes()`. -/
def loadTopMem {F : Type} (processes : Option (List (Process F))) : List (ProcessInfo F) :=
  match processes with
  | none => []
  | some processes =>
    sortSlice (fun a b => decide (a.Memory > b.Memory)) (processes.foldl topMemStep [])

/-- A process that answers every query, with CPU percentage `cpu` and resident set `rss`. -/
def mkProcess (pid : Int) (cpu : ℚ) (rss : Nat) : Process ℚ :=
  { Pid := pid, CPUPercent := some cpu, MemoryInfo := some rss, MemoryPercent := 0,
    Name := some "p", Cmdline := some "p", Username := some "u" }

/-! ## handles/util.go: the disk fan-out -/

/-- Go's `a < b` on strings.  Go compares byte by byte; on UTF-8 text that is the
lexicographic comparison of the code points, which is the order of the character lists. -/
def stringLess (a b : String) : Bool := decide (a.toList < b.toList)

/-- The library call `strings.Split(s, "/")` on the characters of `s`: the pieces between
the slashes, one more piece than there are slashes. -/
def splitSlash : List Char → List (List Char)
  | [] => [[]]
  | c :: cs =>
    if c = '/' then [] :: splitSlash cs
    else
      match splitSlash cs with
      | [] => [[c]]
      | piece :: pieces => (c :: piece) :: pieces

/-- The fields of `disk.PartitionStat` that `loadDiskInfo` reads. -/
structure PartitionStat where
  Device : String
  Mountpoint : String
  Fstype : String
  deriving DecidableEq

/-- The fields of `disk.UsageStat` that `loadDiskInfo` reads. -/
structure UsageStat where
  Total : Nat
  Free : Nat
  Used : Nat
  UsedPercent : ℚ
  InodesTotal : Nat
  InodesUsed : Nat
  InodesFree : Nat
  InodesUsedPercent : ℚ
  deriving DecidableEq

/-- The struct `DiskInfo`; its field `Type` is called `Typ`, the word being reserved. -/
structure DiskInfo where
  Path : String
  Typ : String
  Device : String
  Total : Nat := 0
  Free : Nat := 0
  Used : Nat := 0
  UsedPercent : ℚ := 0
  InodesTotal : Nat := 0
  InodesUsed : Nat := 0
  InodesFree : Nat := 0
  InodesUsedPercent : ℚ := 0
  deriving DecidableEq

/-- The struct `diskInfo`; its field `Type` is called `Typ`. -/
structure diskInfo where
  Typ : String
  Mount : String
  Device : String
  deriving DecidableEq

/-- The slice `excludes` of `loadDiskInfo`. -/
def excludes : List String :=
  ["/mnt/cdrom", "/boot", "/boot/efi", "/dev", "/dev/shm", "/run/lock", "/run", "/run/shm",
   "/run/user", "/snap"]

/-- The slice `excludesType` of `loadDiskInfo`. -/
def excludesType : List String :=
  ["tmpfs", "overlay", "proc", "cgroup", "sysfs", "mqueue", "devpts"]

/-- One iteration of the filtering loop of `loadDiskInfo`; `slices.Contains` is list
membership. -/
def filterStep (mounts : List diskInfo) (partition : PartitionStat) : List diskInfo :=
  if partition.Fstype ∈ excludesType then mounts
  else if partition.Mountpoint ∈ excludes then mounts
  else if (splitSlash partition.Mountpoint.toList).length > 10 then mounts
  else mounts ++ [{ Typ := partition.Fstype, Device := partition.Device,
                    Mount := partition.Mountpoint }]

/-- The filtering loop of `loadDiskInfo`: the slice `mounts` it builds. -/
def filterMounts (partitions : List PartitionStat) : List diskInfo :=
  partitions.foldl filterStep []

/-- How the `select` of one goroutine of `loadDiskInfo` ends: the five-second timer fires
first, or `GetUsage` answers first with an error, or it answers first with a `UsageStat`. -/
inductive UsageOutcome where
  | timeout
  | failed
  | done (state : UsageStat)
  deriving DecidableEq

/-- The body of the goroutine started for `mount`: the record it appends to `datas`. -/
def diskWorker (mount : diskInfo) (outcome : UsageOutcome) : DiskInfo :=
  let itemData : DiskInfo := { Path := mount.Mount, Typ := mount.Typ, Device := mount.Device }
  match outcome with
  | .timeout => itemData
  | .failed => itemData
  | .done state =>
    { itemData with
      Total := state.Total
      Free := state.Free
      Used := state.Used
      UsedPercent := state.UsedPercent
      InodesTotal := state.InodesTotal
      InodesUsed := state.InodesUsed
      InodesFree := state.InodesFree
      InodesUsedPercent := state.InodesUsedPercent }

/-- The appends of the goroutines, which the mutex puts one after the other in an order
the scheduler chooses: with `n` records pending, the next number of `sched` (taken modulo
the number of pending records, `0` once `sched` is used up) names the one appended next.
Every order of completion arises from some `sched` (see `drain_complete`). -/
def drain {α : Type} : Nat → List Nat → List α → List α
  | 0, _, _ => []
  | n + 1, sched, pending =>
    let i := sched.headD 0 % pending.length
    match pending[i]? with
    | none => []
    | some x => x :: drain n sched.tail (pending.eraseIdx i)

/-- The function `loadDiskInfo`.  `partitions` is the answer of `GetPartitions`, `usage i`
is how the `select` of the goroutine of `mounts[i]` ends, and `sched` is the order in which
the goroutines reach their append (see `drain`); `wg.Wait()` lets all of them append
before the sort. -/
def loadDiskInfo (partitions : Option (List PartitionStat)) (usage : Nat → UsageOutcome)
    (sched : List Nat) : List DiskInfo :=
  match partitions with
  | none => []
  | some partitions =>
    let mounts := filterMounts partitions
    let records := mounts.mapIdx (fun i mount => diskWorker mount (usage i))
    let datas := drain records.length sched records
    sortSlice (fun a b => stringLess a.Path b.Path) datas

/-- The `Percent` fields of what `loadTopCPU` returns for a process list that was read
without error. -/
def cpuPercents {F : Type} [LinearOrder F] (processes : List (Process F)) : List F :=
  (loadTopCPU (some processes)).map ProcessInfo.Percent

/-- The `Memory` fields of what `loadTopMem` returns for a process list that was read
without error. -/
def memSizes {F : Type} (processes : List (Process F)) : List Nat :=
  (loadTopMem (some processes)).map ProcessInfo.Memory

/-- Six processes with the pids 1 to 6 that all show the CPU percentage 7 and the resident
size 7. -/
def equalSix : List (Process ℚ) := [1, 2, 3, 4, 5, 6].map (fun pid => mkProcess pid 7 7)

/-- The working set of `loadTopCPU` after the first five processes of `equalSix`. -/
def fullCPUSet : List (ProcessInfo ℚ) := (equalSix.take 5).foldl topCPUStep []

/-- The working set of `loadTopMem` after the first five processes of `equalSix`. -/
def fullMemSet : List (ProcessInfo ℚ) := (equalSix.take 5).foldl topMemStep []

/-! ## psutil/cpu.go: the detailed counters of readAllCPUStat -/

/-- Go's `a + b` on `uint64` operands: the sum modulo `2 ^ 64`. -/
def addUint64 (a b : Nat) : Nat := (a + b) % uint64Size

/-- The block `if len(nums) < 10 { padded := make([]uint64, 10); copy(padded, nums);
nums = padded }` of `readAllCPUStat`. -/
def padFields (nums : List Nat) : List Nat :=
  if nums.length < 10 then nums ++ List.replicate (10 - nums.length) 0 else nums

/-- The part of `readAllCPUStat` that builds `detailedStat` from the numbers `nums` parsed
from the first line of `/proc/stat`: the ten fields, and `Total` as the `uint64` sum of the
first eight. -/
def detailedStatOfFields (nums : List Nat) : CPUDetailedStat :=
  let nums := padFields nums
  let detailedStat : CPUDetailedStat :=
    { User := nums.getD 0 0
      Nice := nums.getD 1 0
      System := nums.getD 2 0
      Idle := nums.getD 3 0
      Iowait := nums.getD 4 0
      Irq := nums.getD 5 0
      Softirq := nums.getD 6 0
      Steal := nums.getD 7 0
      Guest := nums.getD 8 0
      GuestNice := nums.getD 9 0 }
  { detailedStat with
    Total := addUint64 (addUint64 (addUint64 (addUint64 (addUint64 (addUint64 (addUint64
      detailedStat.User detailedStat.Nice) detailedStat.System) detailedStat.Idle)
      detailedStat.Iowait) detailedStat.Irq) detailedStat.Softirq) detailedStat.Steal }

/-! ## handles/util.go: getBaseInfo -/

/-- The fields of `host.InfoStat` that `getBaseInfo` reads. -/
structure HostInfoStat where
  Hostname : String
  OS : String
  Platform : String
  PlatformFamily : String
  PlatformVersion : String
  KernelArch : String
  KernelVersion : String
  deriving DecidableEq

/-- The fields of `cpu.InfoStat` that `getBaseInfo` reads. -/
structure CPUInfoStat where
  ModelName : String
  Mhz : ℚ
  deriving DecidableEq

/-- The struct `BaseInfo`; `CI` stands for the struct `CurrentInfo`, and the pointer field
`CurrentInfo` is `none` while it is nil. -/
structure BaseInfo (CI : Type) where
  Hostname : String
  OS : String
  Platform : String
  PlatformFamily : String
  PlatformVersion : String
  PrettyDistro : String
  KernelArch : String
  KernelVersion : String
  IPV4Addr : String
  SystemProxy : String
  CPUCores : Int := 0
  CPULogicalCores : Int := 0
  CPUModelName : String := ""
  CPUMhz : ℚ := 0
  CurrentInfo : Option CI := none
  deriving DecidableEq

/-- How a call of `getBaseInfo` ends: it returns a `BaseInfo` and a nil error, it returns a
nil pointer and an error, or it panics with an index out of range. -/
inductive BaseResult (CI : Type) where
  | returned (bi : BaseInfo CI)
  | failed
  | panicked
  deriving DecidableEq

/-- What one call of `getBaseInfo` reads from outside: the answer of
`psutil.HOST.GetHostInfo(false)` (`none` is an error), of `psutil.HOST.GetDistro()`, of
`loadOutboundIP()`, of `os.Getenv` for the two proxy variables, of
`psutil.CPUInfo.GetCPUInfo(false)` (`none` is an error, with which the slice returned is
nil), the numbers returned by `GetPhysicalCores(false)` and `GetLogicalCores(false)`, whose
errors the code ignores, and the value `getCurrentInfo()` returns. -/
structure BaseEnv (CI : Type) where
  hostInfo : Option HostInfoStat
  distro : String
  outboundIP : String
  http_proxy : String
  HTTP_PROXY : String
  cpuInfo : Option (List CPUInfoStat)
  physicalCores : Int
  logicalCores : Int
  currentInfo : CI

/-- The library call `cmp.Or(a, b)` on strings: the first argument that is not empty. -/
def cmpOr (a b : String) : String := if a ≠ "" then a else if b ≠ "" then b else ""

/-- The function `getBaseInfo`. -/
def getBaseInfo {CI : Type} (env : BaseEnv CI) : BaseResult CI :=
  match env.hostInfo with
  | none => .failed
  | some hostInfo =>
    let bi : BaseInfo CI :=
      { Hostname := hostInfo.Hostname
        OS := hostInfo.OS
        Platform := hostInfo.Platform
        PlatformFamily := hostInfo.PlatformFamily
        PlatformVersion := hostInfo.PlatformVersion
        PrettyDistro := env.distro
        KernelArch := hostInfo.KernelArch
        KernelVersion := hostInfo.KernelVersion
        IPV4Addr := env.outboundIP
        SystemProxy := "noProxy" }
    let proxy := cmpOr env.http_proxy env.HTTP_PROXY
    let bi := if proxy ≠ "" then { bi with SystemProxy := proxy } else bi
    let cpuInfo : List CPUInfoStat := env.cpuInfo.getD []
    let bi :=
      if env.cpuInfo.isSome ∧ cpuInfo.length > 0 then
        match cpuInfo[0]? with
        | some first => { bi with CPUModelName := first.ModelName }
        | none => bi
      else bi
    let bi := { bi with CPUCores := env.physicalCores, CPULogicalCores := env.logicalCores }
    match cpuInfo[0]? with
    | none => .panicked
    | some first =>
      .returned { bi with CPUMhz := first.Mhz, CurrentInfo := some env.currentInfo }

/-- An environment of `getBaseInfo` in which the host-info query succeeds and the CPU-info
query answers `cpuInfo`. -/
def baseEnvWith (cpuInfo : Option (List CPUInfoStat)) : BaseEnv Unit :=
  { hostInfo := some ⟨"host", "linux", "ubuntu", "debian", "22.04", "x86_64", "5.15"⟩
    distro := "Ubuntu 22.04"
    outboundIP := "10.0.0.2"
    http_proxy := ""
    HTTP_PROXY := ""
    cpuInfo := cpuInfo
    physicalCores := 4
    logicalCores := 8
    currentInfo := () }

/-! ## Auxiliary definitions of the development -/

/-- The detailed counters `readAllCPUStat` builds from a first line of `/proc/stat`. -/
def procStatPrev : CPUDetailedStat := detailedStatOfFields [100, 0, 50, 800, 10, 0, 5, 0, 0, 0]

/-- The detailed counters `readAllCPUStat` builds from a later first line of `/proc/stat`. -/
def procStatCur : CPUDetailedStat := detailedStatOfFields [160, 0, 70, 900, 20, 0, 10, 0, 0, 0]

/-- A partition whose mount path holds exactly 10 slashes and that passes both
deny-lists. -/
def deepPartition : PartitionStat := ⟨"sdz1", "/a/b/c/d/e/f/g/h/i/j", "ext4"⟩

/-- Two partitions mounted below the deny-listed paths `/run/user` and `/snap`, with
filesystem types that are not deny-listed. -/
def nestedPartitions : List PartitionStat :=
  [⟨"portal", "/run/user/1000", "fuse.portal"⟩, ⟨"/dev/loop3", "/snap/core20/1234", "squashfs"⟩]

/-- A sampler that served a success 10 s ago: the state left by a call at 1000 s on a fresh
sampler whose query answered with the single reading 50. -/
def staleSampler : CPUUsageState :=
  (CPUUsageState.GetCPUUsage {} { now := 1000000000000, percent := some [50], stamp := 1000100000000 }).1

/-- A call on `staleSampler` at 1010 s whose `cpu.Percent` returns an error; the timestamp
is stored at 1010.1 s. -/
def failedCall : CPUUsageState × UsageResult :=
  staleSampler.GetCPUUsage { now := 1010000000000, percent := none, stamp := 1010100000000 }

/-- The next call, at 1011 s, on the state `failedCall` leaves. -/
def repeatedCall : CPUUsageState × UsageResult :=
  failedCall.1.GetCPUUsage { now := 1011000000000, percent := some [70], stamp := 1011100000000 }

/-- A call on a fresh sampler at 1010 s whose `cpu.Percent` returns an error. -/
def freshFailedCall : CPUUsageState × UsageResult :=
  CPUUsageState.GetCPUUsage {} { now := 1010000000000, percent := none, stamp := 1010100000000 }

/-- The next call, at 1011 s, on the state `freshFailedCall` leaves. -/
def freshRepeatedCall : CPUUsageState × UsageResult :=
  freshFailedCall.1.GetCPUUsage { now := 1011000000000, percent := some [70], stamp := 1011100000000 }

/-- The keys `ks` of the working set after the metrics `seen`: the set holds `min(n, 5)`
of them, and none of those left out (`rest`) is above one that is held. -/
def TopInv {K : Type} [LinearOrder K] (ks seen : List K) : Prop :=
  ks.length = min seen.length 5 ∧
    ∃ rest, (ks ++ rest).Perm seen ∧ ∀ x ∈ ks, ∀ y ∈ rest, y ≤ x

/-- The mount a partition contributes to `mounts`, if it passes the three checks. -/
def mountOf (partition : PartitionStat) : Option diskInfo :=
  match filterStep [] partition with
  | [] => none
  | mount :: _ => some mount

/-! ## Properties of psutil/cpu.go -/

theorem subUint64_of_le {a b : Nat} (ha : IsUint64 a) (hba : b ≤ a) : subUint64 a b = a - b := by
  unfold subUint64
  unfold IsUint64 at ha
  have h : a + uint64Size - b = (a - b) + uint64Size := by omega
  rw [h, Nat.add_mod_right]
  exact Nat.mod_eq_of_lt (by omega)

theorem subUint64_self (a : Nat) : subUint64 a a = 0 := by
  unfold subUint64
  simp

theorem subUint64_pos_of_ne {a b : Nat} (ha : IsUint64 a) (hb : IsUint64 b) (hab : a ≠ b) :
    0 < subUint64 a b := by
  unfold subUint64
  unfold IsUint64 at ha hb
  rcases Nat.lt_or_gt_of_ne hab with h | h
  · rw [Nat.mod_eq_of_lt (by omega)]; omega
  · have h2 : a + uint64Size - b = (a - b) + uint64Size := by omega
    rw [h2, Nat.add_mod_right, Nat.mod_eq_of_lt (by omega)]; omega

/-- The guard of `calcCPUPercent` is taken when the totals are equal. -/
theorem calcCPUPercent_total_equal (prev cur : CPUStat) (h : cur.Total = prev.Total) :
    calcCPUPercent prev cur = 0 := by
  unfold calcCPUPercent
  simp [h, subUint64_self]

/-- The guard of `calcCPUDetailedPercent` is taken when the totals are equal. -/
theorem calcCPUDetailedPercent_total_equal (prev cur : CPUDetailedStat)
    (h : cur.Total = prev.Total) : calcCPUDetailedPercent prev cur = { Idle := 100 } := by
  unfold calcCPUDetailedPercent
  simp [h, subUint64_self]

/-- C2, at a counter that went back: with `prev = {Idle: 0, Total: 1}` and
`cur = {Idle: 0, Total: 0}`, where `cur.Total <= prev.Total`, `calcCPUPercent` returns 100
and not 0, the `uint64` difference `cur.Total - prev.Total` having wrapped to `2^64 - 1`. -/
theorem calcCPUPercent_total_decreased :
    (CPUStat.mk 0 1).WF ∧ (CPUStat.mk 0 0).WF ∧ (CPUStat.mk 0 0).Total ≤ (CPUStat.mk 0 1).Total ∧
      calcCPUPercent ⟨0, 1⟩ ⟨0, 0⟩ = 100 := by
  refine ⟨by decide, by decide, by decide, ?_⟩
  norm_num [calcCPUPercent, subUint64, uint64Size]

/-- C3 as stated fails: with `prev = {Idle: 0, Total: 0}` and `cur = {Idle: 2, Total: 1}`,
where `cur.Total > prev.Total`, `calcCPUPercent` returns -100, which is below 0. -/
theorem calcCPUPercent_below_zero :
    (CPUStat.mk 0 0).WF ∧ (CPUStat.mk 2 1).WF ∧ (CPUStat.mk 2 1).Total > (CPUStat.mk 0 0).Total ∧
      calcCPUPercent ⟨0, 0⟩ ⟨2, 1⟩ = -100 ∧
      ¬ (0 ≤ calcCPUPercent ⟨0, 0⟩ ⟨2, 1⟩ ∧ calcCPUPercent ⟨0, 0⟩ ⟨2, 1⟩ ≤ 100) := by
  have h : calcCPUPercent ⟨0, 0⟩ ⟨2, 1⟩ = -100 := by
    norm_num [calcCPUPercent, subUint64, uint64Size]
  refine ⟨by decide, by decide, by decide, h, ?_⟩
  rw [h]; norm_num

/-- C3, amended: for `uint64` counters with `cur.Total > prev.Total` and
`prev.Idle <= cur.Idle`, the value of `calcCPUPercent(prev, cur)` lies in `[0, 100]` exactly
when the idle delta `cur.Idle - prev.Idle` is at most the total delta
`cur.Total - prev.Total`. -/
theorem calcCPUPercent_range_iff (prev cur : CPUStat) (_hprev : prev.WF) (hcur : cur.WF)
    (htotal : cur.Total > prev.Total) (hidle : prev.Idle ≤ cur.Idle) :
    (0 ≤ calcCPUPercent prev cur ∧ calcCPUPercent prev cur ≤ 100) ↔
      cur.Idle - prev.Idle ≤ cur.Total - prev.Total := by
  have hI : subUint64 cur.Idle prev.Idle = cur.Idle - prev.Idle := subUint64_of_le hcur.1 hidle
  have hT : subUint64 cur.Total prev.Total = cur.Total - prev.Total :=
    subUint64_of_le hcur.2 (Nat.le_of_lt htotal)
  have hTpos : (0 : ℚ) < ((cur.Total - prev.Total : Nat) : ℚ) := by
    have : 0 < cur.Total - prev.Total := Nat.sub_pos_of_lt htotal
    exact_mod_cast this
  have hIge : (0 : ℚ) ≤ ((cur.Idle - prev.Idle : Nat) : ℚ) := Nat.cast_nonneg _
  have hval : calcCPUPercent prev cur =
      (1 - ((cur.Idle - prev.Idle : Nat) : ℚ) / ((cur.Total - prev.Total : Nat) : ℚ)) * 100 := by
    unfold calcCPUPercent
    simp only [hI, hT]
    rw [if_neg (not_le.mpr hTpos)]
  have hfrac : (0 : ℚ) ≤ ((cur.Idle - prev.Idle : Nat) : ℚ) / ((cur.Total - prev.Total : Nat) : ℚ) :=
    div_nonneg hIge (le_of_lt hTpos)
  rw [hval]
  constructor
  · rintro ⟨h0, -⟩
    have h1 : ((cur.Idle - prev.Idle : Nat) : ℚ) / ((cur.Total - prev.Total : Nat) : ℚ) ≤ 1 := by
      nlinarith
    rw [div_le_one hTpos] at h1
    exact_mod_cast h1
  · intro h
    have h1 : ((cur.Idle - prev.Idle : Nat) : ℚ) / ((cur.Total - prev.Total : Nat) : ℚ) ≤ 1 := by
      rw [div_le_one hTpos]
      exact_mod_cast h
    constructor <;> nlinarith

/-- Witness of `calcCPUPercent_range_iff`: from `{Idle: 10, Total: 40}` to
`{Idle: 20, Total: 80}` the percentage is within `[0, 100]`. -/
theorem calcCPUPercent_range_iff_witness :
    0 ≤ calcCPUPercent ⟨10, 40⟩ ⟨20, 80⟩ ∧ calcCPUPercent ⟨10, 40⟩ ⟨20, 80⟩ ≤ 100 :=
  (calcCPUPercent_range_iff ⟨10, 40⟩ ⟨20, 80⟩ (by decide) (by decide) (by decide) (by decide)).mpr
    (by decide)

/-- C4: for `uint64` counters with `prev.Idle <= cur.Idle` and `prev.Total < cur.Total`,
`calcCPUPercent(prev, cur)` is `(1 - (cur.Idle - prev.Idle)/(cur.Total - prev.Total)) * 100`;
and from `{Idle: 100, Total: 200}` to `{Idle: 150, Total: 300}` it is exactly 50. -/
theorem calcCPUPercent_formula (prev cur : CPUStat) (_hprev : prev.WF) (hcur : cur.WF)
    (hidle : prev.Idle ≤ cur.Idle) (htotal : prev.Total < cur.Total) :
    calcCPUPercent prev cur =
        (1 - ((cur.Idle : ℚ) - prev.Idle) / ((cur.Total : ℚ) - prev.Total)) * 100 ∧
      calcCPUPercent ⟨100, 200⟩ ⟨150, 300⟩ = 50 := by
  have hI : subUint64 cur.Idle prev.Idle = cur.Idle - prev.Idle := subUint64_of_le hcur.1 hidle
  have hT : subUint64 cur.Total prev.Total = cur.Total - prev.Total :=
    subUint64_of_le hcur.2 (Nat.le_of_lt htotal)
  have hTpos : (0 : ℚ) < ((cur.Total - prev.Total : Nat) : ℚ) := by
    have : 0 < cur.Total - prev.Total := Nat.sub_pos_of_lt htotal
    exact_mod_cast this
  constructor
  · unfold calcCPUPercent
    simp only [hI, hT]
    rw [if_neg (not_le.mpr hTpos), Nat.cast_sub hidle, Nat.cast_sub (Nat.le_of_lt htotal)]
  · norm_num [calcCPUPercent, subUint64, uint64Size]

/-- Witness of `calcCPUPercent_formula`: from `{Idle: 3, Total: 10}` to
`{Idle: 4, Total: 14}` the percentage is `(1 - 1/4) * 100`. -/
theorem calcCPUPercent_formula_witness :
    calcCPUPercent ⟨3, 10⟩ ⟨4, 14⟩ = (1 - (((4 : Nat) : ℚ) - (3 : Nat)) / (((14 : Nat) : ℚ) - (10 : Nat))) * 100 :=
  (calcCPUPercent_formula ⟨3, 10⟩ ⟨4, 14⟩ (by decide) (by decide) (by decide) (by decide)).1

/-- C10, at a counter that went back: with every field of `prev` zero but `Total = 1` and
every field of `cur` zero, where `cur.Total <= prev.Total`, `calcCPUDetailedPercent` returns
`Idle = 0` and not `Idle = 100`, the `uint64` difference of the totals having wrapped to
`2^64 - 1`. -/
theorem calcCPUDetailedPercent_total_decreased :
    CPUDetailedStat.WF { Total := 1 } ∧ CPUDetailedStat.WF {} ∧
      (({} : CPUDetailedStat).Total ≤ ({ Total := 1 } : CPUDetailedStat).Total) ∧
      calcCPUDetailedPercent { Total := 1 } {} = {} ∧
      (calcCPUDetailedPercent { Total := 1 } {}).Idle = 0 := by
  have h : calcCPUDetailedPercent { Total := 1 } {} = {} := by
    norm_num [calcCPUDetailedPercent, subUint64, uint64Size]
  refine ⟨by decide, by decide, by decide, h, ?_⟩
  rw [h]

/-- The sum loop of `GetCPUUsage` computes the sum of the readings. -/
theorem sumUsage_eq_sum (p : List ℚ) : sumUsage p = p.sum := by
  unfold sumUsage
  have h : ∀ (l : List ℚ) (acc : ℚ),
      l.foldl (fun totalUsage usage => totalUsage + usage) acc = acc + l.sum := by
    intro l
    induction l with
    | nil => intro acc; simp
    | cons x xs ih => intro acc; rw [List.foldl_cons, ih, List.sum_cons]; ring
  rw [h]; simp

/-- C7, at a first call whose query fails: on `staleSampler` a call at 1010 s whose
`cpu.Percent` returns an error stores the timestamp 1010.1 s and returns `(0, [], [])`; a
second call at 1011 s, less than `fastInterval` after that timestamp, asks nothing and
returns the triple cached before the failure, `(50, [50], [30, 15, 0, 50, 5, 0, 0, 0])`,
which is not the triple the first call returned.  On a fresh sampler the second call
returns `(0, [], [0, 0, 0, 0, 0, 0, 0, 0])`, again not the triple of the first call. -/
theorem GetCPUUsage_after_failed_query :
    failedCall.1.lastSampleTime = 1010100000000 ∧
      (1011000000000 : Int) - failedCall.1.lastSampleTime < fastInterval ∧
      failedCall.2.queried = true ∧
      failedCall.2.total = 0 ∧ failedCall.2.perCore = [] ∧ failedCall.2.detailed = [] ∧
      repeatedCall.2.queried = false ∧
      repeatedCall.2.total = 50 ∧ repeatedCall.2.perCore = [50] ∧
      repeatedCall.2.detailed = [30, 15, 0, 50, 5, 0, 0, 0] ∧
      (failedCall.2.total, failedCall.2.perCore, failedCall.2.detailed) ≠
        (repeatedCall.2.total, repeatedCall.2.perCore, repeatedCall.2.detailed) ∧
      freshFailedCall.2.queried = true ∧ freshFailedCall.2.detailed = [] ∧
      freshRepeatedCall.2.queried = false ∧
      freshRepeatedCall.2.detailed = [0, 0, 0, 0, 0, 0, 0, 0] ∧
      (freshFailedCall.2.total, freshFailedCall.2.perCore, freshFailedCall.2.detailed) ≠
        (freshRepeatedCall.2.total, freshRepeatedCall.2.perCore, freshRepeatedCall.2.detailed) := by
  have hs : staleSampler =
      { lastSampleTime := 1000100000000, cachedTotalUsage := 50, cachedPerCore := [50],
        cachedDetailedPercent := { User := 30, System := 15, Idle := 50, Iowait := 5 } } := by
    norm_num [staleSampler, CPUUsageState.GetCPUUsage, sumUsage, fastInterval]
  have hf : failedCall =
      ({ lastSampleTime := 1010100000000, cachedTotalUsage := 50, cachedPerCore := [50],
         cachedDetailedPercent := { User := 30, System := 15, Idle := 50, Iowait := 5 } },
       { total := 0, perCore := [], detailed := [], queried := true }) := by
    unfold failedCall
    rw [hs]
    norm_num [CPUUsageState.GetCPUUsage, fastInterval]
  have hr : repeatedCall.2 =
      { total := 50, perCore := [50], detailed := [30, 15, 0, 50, 5, 0, 0, 0],
        queried := false } := by
    unfold repeatedCall
    rw [hf]
    norm_num [CPUUsageState.GetCPUUsage, fastInterval,
      CPUDetailedPercent.GetCPUDetailedPercent]
  have hff : freshFailedCall =
      ({ lastSampleTime := 1010100000000 },
       { total := 0, perCore := [], detailed := [], queried := true }) := by
    norm_num [freshFailedCall, CPUUsageState.GetCPUUsage, fastInterval]
  have hfr : freshRepeatedCall.2 =
      { total := 0, perCore := [], detailed := [0, 0, 0, 0, 0, 0, 0, 0],
        queried := false } := by
    unfold freshRepeatedCall
    rw [hff]
    norm_num [CPUUsageState.GetCPUUsage, fastInterval,
      CPUDetailedPercent.GetCPUDetailedPercent]
  rw [hf, hr, hff, hfr]
  norm_num [fastInterval]
  exact List.cons_ne_nil _ _

/-- The part of the cache contract that does hold: when the first call is served from the
cache, or its query succeeds and the timestamp it stores is not the zero instant, a second
call less than `fastInterval` after the stored timestamp asks nothing and returns what the
first call returned. -/
theorem GetCPUUsage_repeat_of_no_failure (c : CPUUsageState) (env env2 : UsageEnv)
    (hok : (c.GetCPUUsage env).2.queried = false ∨ (env.percent ≠ none ∧ env.stamp ≠ 0))
    (hnear : env2.now - (c.GetCPUUsage env).1.lastSampleTime < fastInterval) :
    ((c.GetCPUUsage env).1.GetCPUUsage env2).2.queried = false ∧
      ((c.GetCPUUsage env).1.GetCPUUsage env2).2.total = (c.GetCPUUsage env).2.total ∧
      ((c.GetCPUUsage env).1.GetCPUUsage env2).2.perCore = (c.GetCPUUsage env).2.perCore ∧
      ((c.GetCPUUsage env).1.GetCPUUsage env2).2.detailed = (c.GetCPUUsage env).2.detailed := by
  by_cases hhit : c.lastSampleTime ≠ 0 ∧ env.now - c.lastSampleTime < fastInterval
  · have h1 : c.GetCPUUsage env =
        (c, { total := c.cachedTotalUsage, perCore := c.cachedPerCore,
              detailed := c.cachedDetailedPercent.GetCPUDetailedPercent, queried := false }) := by
      unfold CPUUsageState.GetCPUUsage; rw [if_pos hhit]
    rw [h1] at hnear ⊢
    have h2 : c.GetCPUUsage env2 =
        (c, { total := c.cachedTotalUsage, perCore := c.cachedPerCore,
              detailed := c.cachedDetailedPercent.GetCPUDetailedPercent, queried := false }) := by
      unfold CPUUsageState.GetCPUUsage; rw [if_pos ⟨hhit.1, hnear⟩]
    simp [h2]
  · cases hp : env.percent with
    | none =>
      exfalso
      rcases hok with hq | ⟨hne, -⟩
      · unfold CPUUsageState.GetCPUUsage at hq
        rw [if_neg hhit, hp] at hq
        simp at hq
      · exact hne hp
    | some p =>
      have hstamp : env.stamp ≠ 0 := by
        rcases hok with hq | ⟨-, hs⟩
        · unfold CPUUsageState.GetCPUUsage at hq
          rw [if_neg hhit, hp] at hq
          simp at hq
        · exact hs
      have h1 : (c.GetCPUUsage env).1.lastSampleTime = env.stamp := by
        unfold CPUUsageState.GetCPUUsage; rw [if_neg hhit, hp]
      rw [h1] at hnear
      unfold CPUUsageState.GetCPUUsage
      rw [if_neg hhit, hp]
      simp only
      rw [if_pos ⟨hstamp, hnear⟩]
      simp

/-- C8: on a cache miss whose query succeeds with the per-core readings `p`, `GetCPUUsage`
asks `cpu.Percent`, returns the aggregate `a = sum p / len p` (0 for an empty `p`), the list
`p` itself and the detailed list `[0.6a, 0.3a, 0, 100 - a, 0.1a, 0, 0, 0]` in the order
User, System, Nice, Idle, Iowait, Irq, Softirq, Steal, and stores exactly these values, with
the new timestamp, as the cached result. -/
theorem GetCPUUsage_miss_success (c : CPUUsageState) (env : UsageEnv) (p : List ℚ) (a : ℚ)
    (hmiss : c.lastSampleTime = 0 ∨ fastInterval ≤ env.now - c.lastSampleTime)
    (hp : env.percent = some p)
    (ha : a = if p = [] then 0 else p.sum / p.length) :
    (c.GetCPUUsage env).2 =
        { total := a, perCore := p,
          detailed := [0.6 * a, 0.3 * a, 0, 100 - a, 0.1 * a, 0, 0, 0], queried := true } ∧
      (c.GetCPUUsage env).1.cachedTotalUsage = a ∧
      (c.GetCPUUsage env).1.cachedPerCore = p ∧
      (c.GetCPUUsage env).1.cachedDetailedPercent =
        { User := 0.6 * a, System := 0.3 * a, Nice := 0, Idle := 100 - a, Iowait := 0.1 * a,
          Irq := 0, Softirq := 0, Steal := 0 } ∧
      (c.GetCPUUsage env).1.cachedDetailedPercent.GetCPUDetailedPercent =
        [0.6 * a, 0.3 * a, 0, 100 - a, 0.1 * a, 0, 0, 0] ∧
      (c.GetCPUUsage env).1.lastSampleTime = env.stamp := by
  have hnot : ¬ (c.lastSampleTime ≠ 0 ∧ env.now - c.lastSampleTime < fastInterval) := by
    rintro ⟨h0, hlt⟩
    rcases hmiss with h | h
    · exact h0 h
    · exact absurd hlt (not_lt.mpr h)
  have hmean : (if p.length > 0 then sumUsage p / p.length else 0) = a := by
    rw [ha, sumUsage_eq_sum]
    cases p with
    | nil => simp
    | cons x xs => simp
  have e6 : a * (6 / 10) = 0.6 * a := by norm_num; ring
  have e3 : a * (3 / 10) = 0.3 * a := by norm_num; ring
  have e1 : a * (1 / 10) = 0.1 * a := by norm_num; ring
  unfold CPUUsageState.GetCPUUsage
  rw [if_neg hnot, hp]
  simp only [hmean, e6, e3, e1, CPUDetailedPercent.GetCPUDetailedPercent]
  simp

/-- Witness of `GetCPUUsage_miss_success`: a fresh sampler whose query answers `[20, 40]`
returns the aggregate 30. -/
theorem GetCPUUsage_miss_success_witness :
    (CPUUsageState.GetCPUUsage {} { now := 5000000000, percent := some [20, 40], stamp := 5100000000 }).2 =
      { total := 30, perCore := [20, 40],
        detailed := [0.6 * 30, 0.3 * 30, 0, 100 - 30, 0.1 * 30, 0, 0, 0], queried := true } :=
  (GetCPUUsage_miss_success {} { now := 5000000000, percent := some [20, 40], stamp := 5100000000 }
    [20, 40] 30 (Or.inl rfl) rfl (by simp; norm_num)).1

/-! ## Properties of the sort -/

theorem insertionStep_perm {α : Type} (less : α → α → Bool) (x : α) (l : List α) :
    (insertionStep less x l).Perm (x :: l) := by
  induction l with
  | nil => exact List.Perm.refl _
  | cons y ys ih =>
    simp only [insertionStep]
    split
    · exact (List.Perm.cons y ih).trans (List.Perm.swap x y ys)
    · exact List.Perm.refl _

theorem foldl_insertionStep_perm {α : Type} (less : α → α → Bool) (l acc : List α) :
    (l.foldl (fun sortedPart x => insertionStep less x sortedPart) acc).Perm (l ++ acc) := by
  induction l generalizing acc with
  | nil => exact List.Perm.refl _
  | cons x xs ih =>
    rw [List.foldl_cons]
    refine (ih _).trans ?_
    refine (List.Perm.append_left xs (insertionStep_perm less x acc)).trans ?_
    exact List.perm_middle

/-- The sorted slice holds the elements of the slice given. -/
theorem sortSlice_perm {α : Type} (less : α → α → Bool) (data : List α) :
    (sortSlice less data).Perm data := by
  unfold sortSlice
  refine (List.reverse_perm _).trans ?_
  have h := foldl_insertionStep_perm less data []
  rwa [List.append_nil] at h

theorem insertionStep_pairwise {α : Type} (less : α → α → Bool)
    (hasymm : ∀ a b, less a b = true → less b a = false)
    (hneg : ∀ a b c, less a b = false → less b c = false → less a c = false)
    (x : α) (l : List α) (h : l.Pairwise (fun a b => less a b = false)) :
    (insertionStep less x l).Pairwise (fun a b => less a b = false) := by
  induction l with
  | nil => simp [insertionStep]
  | cons y ys ih =>
    rw [List.pairwise_cons] at h
    simp only [insertionStep]
    split
    · rename_i hlt
      rw [List.pairwise_cons]
      refine ⟨?_, ih h.2⟩
      intro z hz
      rcases List.mem_cons.mp ((insertionStep_perm less x ys).subset hz) with hzx | hzy
      · rw [hzx]; exact hasymm x y hlt
      · exact h.1 z hzy
    · rename_i hlt
      have hxy : less x y = false := by simpa using hlt
      rw [List.pairwise_cons]
      refine ⟨?_, List.pairwise_cons.mpr h⟩
      intro z hz
      rcases List.mem_cons.mp hz with hzy | hzy
      · rw [hzy]; exact hxy
      · exact hneg x y z hxy (h.1 z hzy)

theorem foldl_insertionStep_pairwise {α : Type} (less : α → α → Bool)
    (hasymm : ∀ a b, less a b = true → less b a = false)
    (hneg : ∀ a b c, less a b = false → less b c = false → less a c = false)
    (l acc : List α) (h : acc.Pairwise (fun a b => less a b = false)) :
    (l.foldl (fun sortedPart x => insertionStep less x sortedPart) acc).Pairwise
      (fun a b => less a b = false) := by
  induction l generalizing acc with
  | nil => exact h
  | cons x xs ih =>
    rw [List.foldl_cons]
    exact ih _ (insertionStep_pairwise less hasymm hneg x acc h)

/-- For a `less` that is asymmetric and whose negation is transitive, no element of the
sorted slice is `less` than an element before it. -/
theorem sortSlice_pairwise {α : Type} (less : α → α → Bool)
    (hasymm : ∀ a b, less a b = true → less b a = false)
    (hneg : ∀ a b c, less a b = false → less b c = false → less a c = false)
    (data : List α) : (sortSlice less data).Pairwise (fun a b => less b a = false) := by
  unfold sortSlice
  rw [List.pairwise_reverse]
  exact foldl_insertionStep_pairwise less hasymm hneg data [] List.Pairwise.nil

/-- Two arrangements of the same elements that are both ascending by a key show the same
sequence of keys: the keys of a sorted slice do not depend on the sorting algorithm. -/
theorem keys_eq_of_perm_of_sorted {α K : Type} [LinearOrder K] (key : α → K) (l₁ l₂ : List α)
    (hperm : l₁.Perm l₂) (h₁ : (l₁.map key).Sorted (· ≤ ·)) (h₂ : (l₂.map key).Sorted (· ≤ ·)) :
    l₁.map key = l₂.map key :=
  List.eq_of_perm_of_sorted (hperm.map key) h₁ h₂

/-! ## Properties of the top-5 scan -/

/-- The minimum loop, started after the entries `pre` with the minimum `min` of `pre` first
found at `minIndex`, ends with the minimum of all entries and the first index holding it. -/
theorem minLoop_spec {α K : Type} [LinearOrder K] (key : α → K) (xs pre : List α) (min : K)
    (minIndex : Nat)
    (hget : ∃ e, pre[minIndex]? = some e ∧ key e = min)
    (hmin : ∀ e ∈ pre, min ≤ key e)
    (hfirst : ∀ j e, j < minIndex → pre[j]? = some e → min < key e) :
    (∃ e, (pre ++ xs)[(minLoop key xs pre.length min minIndex).2]? = some e ∧
        key e = (minLoop key xs pre.length min minIndex).1) ∧
      (∀ e ∈ pre ++ xs, (minLoop key xs pre.length min minIndex).1 ≤ key e) ∧
      (∀ j e, j < (minLoop key xs pre.length min minIndex).2 → (pre ++ xs)[j]? = some e →
        (minLoop key xs pre.length min minIndex).1 < key e) := by
  induction xs generalizing pre min minIndex with
  | nil =>
    simp only [minLoop, List.append_nil]
    exact ⟨hget, hmin, hfirst⟩
  | cons x xs ih =>
    obtain ⟨e0, he0, hke0⟩ := hget
    have hlt0 : minIndex < pre.length := by
      rcases Nat.lt_or_ge minIndex pre.length with h | h
      · exact h
      · rw [List.getElem?_eq_none h] at he0; cases he0
    have happ : pre ++ x :: xs = (pre ++ [x]) ++ xs := by simp
    have hlen : (pre ++ [x]).length = pre.length + 1 := by simp
    simp only [minLoop]
    split
    · rename_i hlt
      rw [happ, ← hlen]
      apply ih
      · exact ⟨x, by simp, rfl⟩
      · intro e he
        rcases List.mem_append.mp he with h | h
        · exact le_of_lt (lt_of_lt_of_le hlt (hmin e h))
        · simp at h; rw [h]
      · intro j e hj hje
        rw [List.getElem?_append_left hj] at hje
        exact lt_of_lt_of_le hlt (hmin e (List.getElem?_mem hje))
    · rename_i hlt
      rw [happ, ← hlen]
      apply ih
      · exact ⟨e0, by rw [List.getElem?_append_left hlt0]; exact he0, hke0⟩
      · intro e he
        rcases List.mem_append.mp he with h | h
        · exact hmin e h
        · simp at h; rw [h]; exact not_lt.mp hlt
      · intro j e hj hje
        rw [List.getElem?_append_left (lt_trans hj hlt0)] at hje
        exact hfirst j e hj hje

/-- On a full working set `scanMin` skips a candidate below the minimum, and for any other
candidate gives the first index that holds the minimum. -/
theorem scanMin_full {α K : Type} [LinearOrder K] (key : α → K) (top5 : List α) (metric : K)
    (hlen : top5.length ≥ 5) :
    ∃ (i : Nat) (e : α), top5[i]? = some e ∧ (∀ e2 ∈ top5, key e ≤ key e2) ∧
      (∀ j e2, j < i → top5[j]? = some e2 → key e < key e2) ∧
      scanMin key top5 metric = if metric < key e then none else some i := by
  cases top5 with
  | nil => simp at hlen
  | cons x xs =>
    have h := minLoop_spec key xs [x] (key x) 0 ⟨x, rfl, rfl⟩
      (by intro e he; simp at he; rw [he])
      (by intro j e hj; omega)
    simp only [List.length_singleton, List.singleton_append] at h
    obtain ⟨⟨e, he, hke⟩, hmin, hfirst⟩ := h
    refine ⟨(minLoop key xs 1 (key x) 0).2, e, he, ?_, ?_, ?_⟩
    · intro e2 he2; rw [hke]; exact hmin e2 he2
    · intro j e2 hj hje; rw [hke]; exact hfirst j e2 hj hje
    · unfold scanMin
      rw [if_pos hlen, hke]

theorem scanMin_not_full {α K : Type} [LinearOrder K] (key : α → K) (top5 : List α) (metric : K)
    (hlen : top5.length < 5) : scanMin key top5 metric = some 0 := by
  unfold scanMin
  rw [if_neg (by omega)]

theorem perm_set_cons {K : Type} (ks : List K) (i : Nat) (m v : K) (rest : List K)
    (hi : ks[i]? = some m) : (ks.set i v ++ m :: rest).Perm (ks ++ v :: rest) := by
  induction ks generalizing i with
  | nil => simp at hi
  | cons k ks ih =>
    cases i with
    | zero =>
      simp only [List.getElem?_cons_zero, Option.some.injEq] at hi
      subst hi
      simp only [List.set_cons_zero, List.cons_append]
      have h1 : (v :: (ks ++ k :: rest)).Perm (v :: k :: (ks ++ rest)) :=
        List.Perm.cons v List.perm_middle
      have h2 : (k :: (ks ++ v :: rest)).Perm (k :: v :: (ks ++ rest)) :=
        List.Perm.cons k List.perm_middle
      exact h1.trans ((List.Perm.swap k v _).trans h2.symm)
    | succ i =>
      simp only [List.getElem?_cons_succ] at hi
      simp only [List.set_cons_succ, List.cons_append]
      exact List.Perm.cons k (ih i hi)

/-- One iteration of a selector keeps `TopInv`: the candidate with key `v` is either skipped
or placed by `place` at the index `scanMin` gives. -/
theorem topInv_step {α K : Type} [LinearOrder K] (key : α → K) (top5 : List α) (seen : List K)
    (info : α) (hinv : TopInv (top5.map key) seen) :
    TopInv ((match scanMin key top5 (key info) with
      | none => top5
      | some minIndex => place top5 minIndex info).map key) (seen ++ [key info]) := by
  obtain ⟨hlen, rest, hperm, hbound⟩ := hinv
  rw [List.length_map] at hlen
  have hpl := hperm.length_eq
  rw [List.length_append, List.length_map] at hpl
  rcases Nat.lt_or_ge top5.length 5 with hlt | hge
  · -- the set is not full: the candidate is appended
    rw [scanMin_not_full key top5 _ hlt]
    have hrest : rest = [] := by
      apply List.eq_nil_of_length_eq_zero
      omega
    subst hrest
    simp only [place, if_neg (Nat.ne_of_lt hlt), List.map_append, List.map_cons, List.map_nil]
    refine ⟨?_, [], ?_, ?_⟩
    · simp only [List.length_append, List.length_map, List.length_singleton]; omega
    · rw [List.append_nil] at hperm ⊢
      exact List.Perm.append_right _ hperm
    · intro x _ y hy; simp at hy
  · -- the set is full
    have hfive : top5.length = 5 := by omega
    obtain ⟨i, e, hie, hmin, -, hscan⟩ := scanMin_full key top5 (key info) hge
    rw [hscan]
    have heks : key e ∈ top5.map key := List.mem_map_of_mem key (List.getElem?_mem hie)
    by_cases hlt : key info < key e
    · -- the candidate is below the minimum and is skipped
      simp only [if_pos hlt]
      refine ⟨?_, key info :: rest, ?_, ?_⟩
      · simp only [List.length_map, List.length_append, List.length_singleton]; omega
      · exact List.perm_middle.trans
          ((List.Perm.cons _ hperm).trans (List.perm_append_singleton _ _).symm)
      · intro x hx y hy
        rcases List.mem_cons.mp hy with h | h
        · rw [h]
          obtain ⟨e2, he2, rfl⟩ := List.mem_map.mp hx
          exact le_of_lt (lt_of_lt_of_le hlt (hmin e2 he2))
        · exact hbound x hx y h
    · -- the candidate takes the place of the minimum
      have hme : key e ≤ key info := not_lt.mp hlt
      simp only [if_neg hlt, place, if_pos hfive, List.map_set]
      have hik : (top5.map key)[i]? = some (key e) := by
        rw [List.getElem?_map, hie]; rfl
      refine ⟨?_, key e :: rest, ?_, ?_⟩
      · simp only [List.length_set, List.length_map, List.length_append, List.length_singleton]
        omega
      · refine (perm_set_cons (top5.map key) i (key e) (key info) rest hik).trans ?_
        exact List.perm_middle.trans
          ((List.Perm.cons _ hperm).trans (List.perm_append_singleton _ _).symm)
      · intro x hx y hy
        have hx2 : x = key info ∨ x ∈ top5.map key := by
          rcases List.mem_or_eq_of_mem_set hx with h | h
          · exact Or.inr h
          · exact Or.inl h
        rcases List.mem_cons.mp hy with h | h
        · rw [h]
          rcases hx2 with hx3 | hx3
          · rw [hx3]; exact hme
          · obtain ⟨e2, he2, rfl⟩ := List.mem_map.mp hx3
            exact hmin e2 he2
        · rcases hx2 with hx3 | hx3
          · rw [hx3]; exact le_trans (hbound _ heks y h) hme
          · exact hbound x hx3 y h

theorem topInv_nil {K : Type} [LinearOrder K] : TopInv ([] : List K) [] :=
  ⟨rfl, [], List.Perm.refl _, by intro x hx; simp at hx⟩

/-- The loop of `loadTopCPU` keeps `TopInv` on the `Percent` fields. -/
theorem foldl_topCPUStep_inv {F : Type} [LinearOrder F] (processes : List (Process F))
    (metrics : List F) (hcpu : processes.map Process.CPUPercent = metrics.map some)
    (top5 : List (ProcessInfo F)) (seen : List F)
    (hinv : TopInv (top5.map ProcessInfo.Percent) seen) :
    TopInv ((processes.foldl topCPUStep top5).map ProcessInfo.Percent) (seen ++ metrics) := by
  induction processes generalizing metrics top5 seen with
  | nil =>
    cases metrics with
    | nil => simpa using hinv
    | cons m ms => simp at hcpu
  | cons p ps ih =>
    cases metrics with
    | nil => simp at hcpu
    | cons m ms =>
      simp only [List.map_cons, List.cons.injEq] at hcpu
      obtain ⟨hp, hps⟩ := hcpu
      rw [List.foldl_cons]
      have hstep : TopInv ((topCPUStep top5 p).map ProcessInfo.Percent) (seen ++ [m]) := by
        have h := topInv_step ProcessInfo.Percent top5 seen
          { Percent := m, Pid := p.Pid, User := p.Username.getD "undifine",
            Name := p.Name.getD "undifine", Cmd := p.Cmdline.getD "undifine", Memory := 0 } hinv
        unfold topCPUStep
        rw [hp]
        exact h
      have h2 := ih ms hps (topCPUStep top5 p) (seen ++ [m]) hstep
      simpa using h2

/-- The loop of `loadTopMem` keeps `TopInv` on the `Memory` fields. -/
theorem foldl_topMemStep_inv {F : Type} (processes : List (Process F))
    (rss : List Nat) (hmem : processes.map Process.MemoryInfo = rss.map some)
    (top5 : List (ProcessInfo F)) (seen : List Nat)
    (hinv : TopInv (top5.map ProcessInfo.Memory) seen) :
    TopInv ((processes.foldl topMemStep top5).map ProcessInfo.Memory) (seen ++ rss) := by
  induction processes generalizing rss top5 seen with
  | nil =>
    cases rss with
    | nil => simpa using hinv
    | cons m ms => simp at hmem
  | cons p ps ih =>
    cases rss with
    | nil => simp at hmem
    | cons m ms =>
      simp only [List.map_cons, List.cons.injEq] at hmem
      obtain ⟨hp, hps⟩ := hmem
      rw [List.foldl_cons]
      have hstep : TopInv ((topMemStep top5 p).map ProcessInfo.Memory) (seen ++ [m]) := by
        have h := topInv_step ProcessInfo.Memory top5 seen
          { Percent := p.MemoryPercent, Pid := p.Pid, User := p.Username.getD "undifine",
            Name := p.Name.getD "undifine", Cmd := p.Cmdline.getD "undifine", Memory := m } hinv
        unfold topMemStep
        rw [hp]
        exact h
      have h2 := ih ms hps (topMemStep top5 p) (seen ++ [m]) hstep
      simpa using h2

/-- A descending arrangement of a working set that satisfies `TopInv` is the first
`min(n, 5)` elements of the metrics in descending order. -/
theorem topInv_sorted_eq_take {K : Type} [LinearOrder K] (ks seen out : List K)
    (hinv : TopInv ks seen) (hperm : out.Perm ks) (hsorted : out.Sorted (· ≥ ·)) :
    out = (seen.insertionSort (· ≥ ·)).take 5 ∧ out.length = min seen.length 5 ∧
      ∃ rest, (out ++ rest).Perm seen ∧ ∀ x ∈ out, ∀ y ∈ rest, y ≤ x := by
  obtain ⟨hlen, rest, hp, hbound⟩ := hinv
  have hlen2 : out.length = min seen.length 5 := by rw [hperm.length_eq]; exact hlen
  have hp2 : (out ++ rest).Perm seen := (List.Perm.append_right rest hperm).trans hp
  have hb2 : ∀ x ∈ out, ∀ y ∈ rest, y ≤ x := fun x hx y hy => hbound x (hperm.subset hx) y hy
  refine ⟨?_, hlen2, rest, hp2, hb2⟩
  have hs : (out ++ rest.insertionSort (· ≥ ·)).Sorted (· ≥ ·) := by
    unfold List.Sorted
    rw [List.pairwise_append]
    refine ⟨hsorted, List.sorted_insertionSort (· ≥ ·) rest, ?_⟩
    intro x hx y hy
    exact hb2 x hx y ((List.perm_insertionSort (· ≥ ·) rest).subset hy)
  have hpp : (out ++ rest.insertionSort (· ≥ ·)).Perm (seen.insertionSort (· ≥ ·)) :=
    ((List.Perm.append_left out (List.perm_insertionSort (· ≥ ·) rest)).trans hp2).trans
      (List.perm_insertionSort (· ≥ ·) seen).symm
  have heq := List.eq_of_perm_of_sorted hpp hs (List.sorted_insertionSort (· ≥ ·) seen)
  rw [← heq]
  have hl := hp2.length_eq
  rw [List.length_append] at hl
  rcases Nat.lt_or_ge out.length 5 with h | h
  · have hrest : rest = [] := List.eq_nil_of_length_eq_zero (by omega)
    subst hrest
    simp only [List.insertionSort, List.append_nil]
    exact (List.take_of_length_le (by omega)).symm
  · have h5 : out.length = 5 := by omega
    rw [← h5, List.take_left]

/-- The `Percent` fields of what `loadTopCPU` returns, against the percentages read. -/
theorem loadTopCPU_percent {F : Type} [LinearOrder F] (processes : List (Process F))
    (metrics : List F) (hcpu : processes.map Process.CPUPercent = metrics.map some) :
    (loadTopCPU (some processes)).map ProcessInfo.Percent =
        (metrics.insertionSort (· ≥ ·)).take 5 ∧
      ((loadTopCPU (some processes)).map ProcessInfo.Percent).length = min metrics.length 5 ∧
      ∃ rest, ((loadTopCPU (some processes)).map ProcessInfo.Percent ++ rest).Perm metrics ∧
        ∀ x ∈ (loadTopCPU (some processes)).map ProcessInfo.Percent, ∀ y ∈ rest, y ≤ x := by
  have hinv := foldl_topCPUStep_inv processes metrics hcpu [] [] topInv_nil
  rw [List.nil_append] at hinv
  apply topInv_sorted_eq_take _ metrics _ hinv
  · exact (sortSlice_perm _ _).map _
  · unfold List.Sorted loadTopCPU
    rw [List.pairwise_map]
    refine (sortSlice_pairwise (fun a b : ProcessInfo F => decide (a.Percent > b.Percent))
      ?_ ?_ _).imp ?_
    · intro a b h
      simp only [decide_eq_true_eq, decide_eq_false_iff_not] at h ⊢
      exact lt_asymm h
    · intro a b c h1 h2
      simp only [decide_eq_false_iff_not, gt_iff_lt, not_lt] at h1 h2 ⊢
      exact le_trans h1 h2
    · intro a b h
      simp only [decide_eq_false_iff_not, gt_iff_lt, not_lt] at h
      exact h

/-- The `Memory` fields of what `loadTopMem` returns, against the resident sizes read. -/
theorem loadTopMem_memory {F : Type} (processes : List (Process F))
    (rss : List Nat) (hmem : processes.map Process.MemoryInfo = rss.map some) :
    (loadTopMem (some processes)).map ProcessInfo.Memory =
        (rss.insertionSort (· ≥ ·)).take 5 ∧
      ((loadTopMem (some processes)).map ProcessInfo.Memory).length = min rss.length 5 ∧
      ∃ rest, ((loadTopMem (some processes)).map ProcessInfo.Memory ++ rest).Perm rss ∧
        ∀ x ∈ (loadTopMem (some processes)).map ProcessInfo.Memory, ∀ y ∈ rest, y ≤ x := by
  have hinv := foldl_topMemStep_inv processes rss hmem [] [] topInv_nil
  rw [List.nil_append] at hinv
  apply topInv_sorted_eq_take _ rss _ hinv
  · exact (sortSlice_perm _ _).map _
  · unfold List.Sorted loadTopMem
    rw [List.pairwise_map]
    refine (sortSlice_pairwise (fun a b : ProcessInfo F => decide (a.Memory > b.Memory))
      ?_ ?_ _).imp ?_
    · intro a b h
      simp only [decide_eq_true_eq, decide_eq_false_iff_not] at h ⊢
      exact lt_asymm h
    · intro a b c h1 h2
      simp only [decide_eq_false_iff_not, gt_iff_lt, not_lt] at h1 h2 ⊢
      exact le_trans h1 h2
    · intro a b h
      simp only [decide_eq_false_iff_not, gt_iff_lt, not_lt] at h
      exact h

/-! ## Properties of the disk fan-out -/

theorem stringLess_iff (a b : String) : stringLess a b = true ↔ a < b := by
  unfold stringLess
  rw [decide_eq_true_eq]
  exact String.lt_iff_toList_lt.symm

theorem stringLess_eq_false_iff (a b : String) : stringLess a b = false ↔ b ≤ a := by
  rw [← not_lt, ← stringLess_iff]
  simp

/-- The sort of `loadDiskInfo` leaves the paths ascending. -/
theorem sortSlice_path_sorted (datas : List DiskInfo) :
    ((sortSlice (fun a b => stringLess a.Path b.Path) datas).map DiskInfo.Path).Sorted (· ≤ ·) := by
  unfold List.Sorted
  rw [List.pairwise_map]
  refine (sortSlice_pairwise (fun a b : DiskInfo => stringLess a.Path b.Path) ?_ ?_ _).imp ?_
  · intro a b h
    rw [stringLess_iff] at h
    rw [stringLess_eq_false_iff]
    exact le_of_lt h
  · intro a b c h1 h2
    rw [stringLess_eq_false_iff] at h1 h2 ⊢
    exact le_trans h2 h1
  · intro a b h
    rw [stringLess_eq_false_iff] at h
    exact h

theorem perm_cons_eraseIdx {α : Type} (l : List α) (i : Nat) (x : α) (h : l[i]? = some x) :
    (x :: l.eraseIdx i).Perm l := by
  induction l generalizing i with
  | nil => simp at h
  | cons y ys ih =>
    cases i with
    | zero =>
      simp only [List.getElem?_cons_zero, Option.some.injEq] at h
      subst h
      exact List.Perm.refl _
    | succ i =>
      simp only [List.getElem?_cons_succ] at h
      simp only [List.eraseIdx_cons_succ]
      exact (List.Perm.swap y x _).trans (List.Perm.cons y (ih i h))

/-- Whatever the scheduler chooses, every pending record is appended exactly once. -/
theorem drain_perm {α : Type} (n : Nat) (sched : List Nat) (pending : List α)
    (hlen : pending.length = n) : (drain n sched pending).Perm pending := by
  induction n generalizing sched pending with
  | zero =>
    have : pending = [] := List.eq_nil_of_length_eq_zero hlen
    subst this
    exact List.Perm.refl _
  | succ n ih =>
    have hi : sched.headD 0 % pending.length < pending.length :=
      Nat.mod_lt _ (by omega)
    simp only [drain]
    rw [List.getElem?_eq_getElem hi]
    simp only
    have hlen2 : (pending.eraseIdx (sched.headD 0 % pending.length)).length = n := by
      rw [List.length_eraseIdx_of_lt hi]; omega
    exact (List.Perm.cons _ (ih sched.tail _ hlen2)).trans
      (perm_cons_eraseIdx pending _ _ (List.getElem?_eq_getElem hi))

/-- Every order of completion is chosen by some schedule. -/
theorem drain_complete {α : Type} (order pending : List α) (h : order.Perm pending) :
    ∃ sched, drain pending.length sched pending = order := by
  induction order generalizing pending with
  | nil =>
    have : pending = [] := h.symm.eq_nil
    subst this
    exact ⟨[], rfl⟩
  | cons x xs ih =>
    have hx : x ∈ pending := h.subset (List.mem_cons_self x xs)
    obtain ⟨i, hi⟩ := List.getElem?_of_mem hx
    have hlt : i < pending.length := by
      rcases Nat.lt_or_ge i pending.length with hl | hl
      · exact hl
      · rw [List.getElem?_eq_none hl] at hi; cases hi
    have hrest : xs.Perm (pending.eraseIdx i) :=
      List.Perm.cons_inv (h.trans (perm_cons_eraseIdx pending i x hi).symm)
    obtain ⟨sched, hs⟩ := ih (pending.eraseIdx i) hrest
    have hlen : pending.length = (pending.eraseIdx i).length + 1 := by
      rw [List.length_eraseIdx_of_lt hlt]; omega
    refine ⟨i :: sched, ?_⟩
    rw [hlen]
    simp only [drain, List.headD_cons, List.tail_cons]
    rw [Nat.mod_eq_of_lt hlt, hi]
    simp only
    rw [hs]

theorem filterStep_eq (mounts : List diskInfo) (partition : PartitionStat) :
    filterStep mounts partition = mounts ++ (mountOf partition).toList := by
  unfold mountOf filterStep
  split
  · simp
  · split
    · simp
    · split
      · simp
      · simp

theorem foldl_filterStep_eq (partitions : List PartitionStat) (mounts : List diskInfo) :
    partitions.foldl filterStep mounts = mounts ++ partitions.filterMap mountOf := by
  induction partitions generalizing mounts with
  | nil => simp
  | cons p ps ih =>
    rw [List.foldl_cons, ih, filterStep_eq]
    cases h : mountOf p <;> simp [List.filterMap_cons, h]

theorem filterMounts_perm (ps ps2 : List PartitionStat) (h : ps.Perm ps2) :
    (filterMounts ps).Perm (filterMounts ps2) := by
  unfold filterMounts
  rw [foldl_filterStep_eq, foldl_filterStep_eq]
  simpa using h.filterMap mountOf

theorem diskWorker_path (mount : diskInfo) (outcome : UsageOutcome) :
    (diskWorker mount outcome).Path = mount.Mount := by
  cases outcome <;> rfl

theorem mapIdx_diskWorker_path (mounts : List diskInfo) (usage : Nat → UsageOutcome) :
    (mounts.mapIdx (fun i mount => diskWorker mount (usage i))).map DiskInfo.Path =
      mounts.map diskInfo.Mount := by
  apply List.ext_getElem?
  intro i
  simp only [List.getElem?_map, List.getElem?_mapIdx]
  cases mounts[i]? with
  | none => rfl
  | some m => simp [diskWorker_path]

/-- What `loadDiskInfo` returns is an arrangement of the records of the goroutines. -/
theorem loadDiskInfo_perm (partitions : List PartitionStat) (usage : Nat → UsageOutcome)
    (sched : List Nat) :
    (loadDiskInfo (some partitions) usage sched).Perm
      ((filterMounts partitions).mapIdx (fun i mount => diskWorker mount (usage i))) := by
  unfold loadDiskInfo
  exact (sortSlice_perm _ _).trans (drain_perm _ sched _ rfl)

/-! ## The selectors and the fan-out: main results -/

/-- C1: when every CPU-percent query succeeds, with the percentages `metrics`, the `Percent`
values `loadTopCPU` returns are the first `min(n, 5)` of `metrics` in descending order: there
are `min(n, 5)` of them, they are descending, and each is at least every metric not
returned (`rest`).  The same holds for `loadTopMem` and the `Memory` field when every
`MemoryInfo` query succeeds.  The metrics 10, 90, 5, 70, 30, 60 give 90, 70, 60, 30, 10. -/
theorem loadTop_returns_top5 {F : Type} [LinearOrder F] (processes : List (Process F)) :
    (∀ metrics : List F, processes.map Process.CPUPercent = metrics.map some →
      cpuPercents processes = (metrics.insertionSort (· ≥ ·)).take 5 ∧
      (cpuPercents processes).length = min processes.length 5 ∧
      (cpuPercents processes).Sorted (· ≥ ·) ∧
      ∃ rest, (cpuPercents processes ++ rest).Perm metrics ∧
        ∀ x ∈ cpuPercents processes, ∀ y ∈ rest, y ≤ x) ∧
    (∀ rss : List Nat, processes.map Process.MemoryInfo = rss.map some →
      memSizes processes = (rss.insertionSort (· ≥ ·)).take 5 ∧
      (memSizes processes).length = min processes.length 5 ∧
      (memSizes processes).Sorted (· ≥ ·) ∧
      ∃ rest, (memSizes processes ++ rest).Perm rss ∧
        ∀ x ∈ memSizes processes, ∀ y ∈ rest, y ≤ x) ∧
    cpuPercents ([10, 90, 5, 70, 30, 60].map (fun c => mkProcess 1 c 0)) = [90, 70, 60, 30, 10] ∧
    memSizes ([10, 90, 5, 70, 30, 60].map (fun m => mkProcess 1 0 m)) = [90, 70, 60, 30, 10] := by
  refine ⟨?_, ?_, by decide, by decide⟩
  · intro metrics hcpu
    obtain ⟨h1, h2, h3⟩ := loadTopCPU_percent processes metrics hcpu
    have hn : metrics.length = processes.length := by
      have := congrArg List.length hcpu
      simpa using this.symm
    refine ⟨h1, by rw [← hn]; exact h2, ?_, h3⟩
    unfold cpuPercents
    rw [h1]
    exact (List.sorted_insertionSort (· ≥ ·) metrics).sublist (List.take_sublist 5 _)
  · intro rss hmem
    obtain ⟨h1, h2, h3⟩ := loadTopMem_memory processes rss hmem
    have hn : rss.length = processes.length := by
      have := congrArg List.length hmem
      simpa using this.symm
    refine ⟨h1, by rw [← hn]; exact h2, ?_, h3⟩
    unfold memSizes
    rw [h1]
    exact (List.sorted_insertionSort (· ≥ ·) rss).sublist (List.take_sublist 5 _)

/-- Witness of `loadTop_returns_top5`: seven processes with the CPU percentages
3, 1, 4, 1, 5, 9, 2 give the percentages sorted downwards and cut after five. -/
theorem loadTop_returns_top5_witness :
    cpuPercents ([3, 1, 4, 1, 5, 9, 2].map (fun c => mkProcess 1 c 0)) =
      (([3, 1, 4, 1, 5, 9, 2] : List ℚ).insertionSort (· ≥ ·)).take 5 :=
  ((loadTop_returns_top5 ([3, 1, 4, 1, 5, 9, 2].map (fun c => mkProcess 1 c 0))).1
    [3, 1, 4, 1, 5, 9, 2] (by decide)).1

/-- C5: whatever the partitions, the outcomes of the usage queries and the order in which
the goroutines finish, the paths of the records `loadDiskInfo` returns are ascending (each
is at most every later one, so each adjacent pair is in order), and a permutation `ps2` of
the partitions `ps`, with any outcomes and any order of completion, gives the same sequence
of paths. -/
theorem loadDiskInfo_sorted_by_path (ps ps2 : List PartitionStat)
    (usage usage2 : Nat → UsageOutcome) (sched sched2 : List Nat) (hperm : ps.Perm ps2) :
    ((loadDiskInfo (some ps) usage sched).map DiskInfo.Path).Sorted (· ≤ ·) ∧
      (loadDiskInfo (some ps) usage sched).Chain' (fun a b => a.Path ≤ b.Path) ∧
      (loadDiskInfo (some ps2) usage2 sched2).map DiskInfo.Path =
        (loadDiskInfo (some ps) usage sched).map DiskInfo.Path := by
  have hs : ∀ (qs : List PartitionStat) (u : Nat → UsageOutcome) (s : List Nat),
      ((loadDiskInfo (some qs) u s).map DiskInfo.Path).Sorted (· ≤ ·) := by
    intro qs u s
    unfold loadDiskInfo
    exact sortSlice_path_sorted _
  have hp : ∀ (qs : List PartitionStat) (u : Nat → UsageOutcome) (s : List Nat),
      ((loadDiskInfo (some qs) u s).map DiskInfo.Path).Perm
        ((filterMounts qs).map diskInfo.Mount) := by
    intro qs u s
    have h := (loadDiskInfo_perm qs u s).map DiskInfo.Path
    rwa [mapIdx_diskWorker_path] at h
  refine ⟨hs ps usage sched, ?_, ?_⟩
  · have h := hs ps usage sched
    unfold List.Sorted at h
    rw [List.pairwise_map] at h
    exact List.Pairwise.chain' h
  · apply List.eq_of_perm_of_sorted _ (hs ps2 usage2 sched2) (hs ps usage sched)
    exact (hp ps2 usage2 sched2).trans
      (((filterMounts_perm ps ps2 hperm).map diskInfo.Mount).symm.trans (hp ps usage sched).symm)

/-- Witness of `loadDiskInfo_sorted_by_path`: three partitions listed in two orders, with
different outcomes and different orders of completion. -/
theorem loadDiskInfo_sorted_by_path_witness :
    (loadDiskInfo (some [⟨"sdb1", "/home", "ext4"⟩, ⟨"sda1", "/", "ext4"⟩, ⟨"sdc1", "/data", "xfs"⟩])
        (fun _ => UsageOutcome.timeout) [2, 0, 0]).map DiskInfo.Path =
      (loadDiskInfo (some [⟨"sda1", "/", "ext4"⟩, ⟨"sdc1", "/data", "xfs"⟩, ⟨"sdb1", "/home", "ext4"⟩])
        (fun _ => UsageOutcome.failed) [1, 1, 0]).map DiskInfo.Path :=
  (loadDiskInfo_sorted_by_path
    [⟨"sda1", "/", "ext4"⟩, ⟨"sdc1", "/data", "xfs"⟩, ⟨"sdb1", "/home", "ext4"⟩]
    [⟨"sdb1", "/home", "ext4"⟩, ⟨"sda1", "/", "ext4"⟩, ⟨"sdc1", "/data", "xfs"⟩]
    (fun _ => UsageOutcome.failed) (fun _ => UsageOutcome.timeout) [1, 1, 0] [2, 0, 0]
    (by decide)).2.2

/-- C6: with the query of each surviving mount ending in a result, an error or a timeout,
`loadDiskInfo` returns exactly the records of the goroutines, one per mount that passed the
filter, in some order; and for every mount whose query times out or returns an error the
record carries the mount's path, type and device with the eight numeric fields zero. -/
theorem loadDiskInfo_one_record_per_mount (partitions : List PartitionStat)
    (usage : Nat → UsageOutcome) (sched : List Nat) :
    (loadDiskInfo (some partitions) usage sched).Perm
        ((filterMounts partitions).mapIdx (fun i mount => diskWorker mount (usage i))) ∧
      (loadDiskInfo (some partitions) usage sched).length = (filterMounts partitions).length ∧
      ∀ (i : Nat) (mount : diskInfo), (filterMounts partitions)[i]? = some mount →
        usage i = UsageOutcome.timeout ∨ usage i = UsageOutcome.failed →
        diskWorker mount (usage i) =
            { Path := mount.Mount, Typ := mount.Typ, Device := mount.Device, Total := 0,
              Free := 0, Used := 0, UsedPercent := 0, InodesTotal := 0, InodesUsed := 0,
              InodesFree := 0, InodesUsedPercent := 0 } ∧
          diskWorker mount (usage i) ∈ loadDiskInfo (some partitions) usage sched := by
  have hperm := loadDiskInfo_perm partitions usage sched
  refine ⟨hperm, ?_, ?_⟩
  · rw [hperm.length_eq, List.length_mapIdx]
  · intro i mount hi hout
    constructor
    · rcases hout with h | h <;> rw [h] <;> rfl
    · apply hperm.symm.subset
      rw [List.mem_iff_getElem?]
      exact ⟨i, by rw [List.getElem?_mapIdx, hi]; rfl⟩

/-- Witness of `loadDiskInfo_one_record_per_mount`: of two surviving mounts the first times
out; its record, with zeroed numbers, is in the result. -/
theorem loadDiskInfo_one_record_per_mount_witness :
    ({ Path := "/home", Typ := "ext4", Device := "sdb1" } : DiskInfo) ∈
      loadDiskInfo (some [⟨"sdb1", "/home", "ext4"⟩, ⟨"tmpfs", "/run", "tmpfs"⟩, ⟨"sda1", "/", "ext4"⟩])
        (fun i => if i = 0 then UsageOutcome.timeout
          else UsageOutcome.done ⟨100, 60, 40, 40, 10, 1, 9, 10⟩) [1] :=
  ((loadDiskInfo_one_record_per_mount
    [⟨"sdb1", "/home", "ext4"⟩, ⟨"tmpfs", "/run", "tmpfs"⟩, ⟨"sda1", "/", "ext4"⟩]
    (fun i => if i = 0 then UsageOutcome.timeout
      else UsageOutcome.done ⟨100, 60, 40, 40, 10, 1, 9, 10⟩) [1]).2.2
    0 ⟨"ext4", "/home", "sdb1"⟩ (by decide) (Or.inl rfl)).2

/-- C9 as stated fails: the working sets after five processes of metric 7 hold five
entries whose minimum is 7; the sixth process, whose metric 7 equals that minimum and is not
greater, is not discarded: the step changes the working set, and `loadTopCPU` and
`loadTopMem` return the pids 6, 2, 3, 4, 5 and not the first five encountered. -/
theorem topStep_equal_candidate_not_discarded :
    fullCPUSet.length = 5 ∧ fullCPUSet.map ProcessInfo.Percent = [7, 7, 7, 7, 7] ∧
      (mkProcess 6 7 7).CPUPercent = some 7 ∧
      topCPUStep fullCPUSet (mkProcess 6 7 7) ≠ fullCPUSet ∧
      (loadTopCPU (some equalSix)).map ProcessInfo.Pid = [6, 2, 3, 4, 5] ∧
      fullMemSet.length = 5 ∧ fullMemSet.map ProcessInfo.Memory = [7, 7, 7, 7, 7] ∧
      (mkProcess 6 7 7).MemoryInfo = some 7 ∧
      topMemStep fullMemSet (mkProcess 6 7 7) ≠ fullMemSet ∧
      (loadTopMem (some equalSix)).map ProcessInfo.Pid = [6, 2, 3, 4, 5] := by
  decide

/-- C9, amended: once the working set holds 5 entries, with `e` its first entry of minimal
metric, at index `i`, a candidate whose metric is strictly below that minimum is discarded
and the working set is left unchanged, and every other candidate, one whose metric equals
the minimum included, replaces the entry at index `i`; this holds in the scan of
`loadTopCPU` on `Percent` and in the scan of `loadTopMem` on `Memory`.  Six processes with
equal metric return the sixth followed by the second to the fifth. -/
theorem topStep_on_full_set {F : Type} [LinearOrder F] (top5 : List (ProcessInfo F))
    (p : Process F) (hlen : top5.length = 5) :
    (∀ percent, p.CPUPercent = some percent →
      ∃ (i : Nat) (e : ProcessInfo F), top5[i]? = some e ∧
        (∀ e2 ∈ top5, e.Percent ≤ e2.Percent) ∧
        (∀ j e2, j < i → top5[j]? = some e2 → e.Percent < e2.Percent) ∧
        (percent < e.Percent → topCPUStep top5 p = top5) ∧
        (e.Percent ≤ percent → topCPUStep top5 p = top5.set i
          { Percent := percent, Pid := p.Pid, User := p.Username.getD "undifine",
            Name := p.Name.getD "undifine", Cmd := p.Cmdline.getD "undifine", Memory := 0 })) ∧
    (∀ memItem, p.MemoryInfo = some memItem →
      ∃ (i : Nat) (e : ProcessInfo F), top5[i]? = some e ∧
        (∀ e2 ∈ top5, e.Memory ≤ e2.Memory) ∧
        (∀ j e2, j < i → top5[j]? = some e2 → e.Memory < e2.Memory) ∧
        (memItem < e.Memory → topMemStep top5 p = top5) ∧
        (e.Memory ≤ memItem → topMemStep top5 p = top5.set i
          { Percent := p.MemoryPercent, Pid := p.Pid, User := p.Username.getD "undifine",
            Name := p.Name.getD "undifine", Cmd := p.Cmdline.getD "undifine",
            Memory := memItem })) ∧
    (loadTopCPU (some equalSix)).map ProcessInfo.Pid = [6, 2, 3, 4, 5] ∧
    (loadTopMem (some equalSix)).map ProcessInfo.Pid = [6, 2, 3, 4, 5] := by
  refine ⟨?_, ?_, by decide, by decide⟩
  · intro percent hp
    obtain ⟨i, e, hie, hmin, hfirst, hscan⟩ :=
      scanMin_full ProcessInfo.Percent top5 percent (by omega)
    refine ⟨i, e, hie, hmin, hfirst, ?_, ?_⟩
    · intro hlt
      unfold topCPUStep
      rw [hp]
      simp only [hscan, if_pos hlt]
    · intro hle
      unfold topCPUStep
      rw [hp]
      simp only [hscan, if_neg (not_lt.mpr hle), place, if_pos hlen]
  · intro memItem hp
    obtain ⟨i, e, hie, hmin, hfirst, hscan⟩ :=
      scanMin_full ProcessInfo.Memory top5 memItem (by omega)
    refine ⟨i, e, hie, hmin, hfirst, ?_, ?_⟩
    · intro hlt
      unfold topMemStep
      rw [hp]
      simp only [hscan, if_pos hlt]
    · intro hle
      unfold topMemStep
      rw [hp]
      simp only [hscan, if_neg (not_lt.mpr hle), place, if_pos hlen]

/-- Witness of `topStep_on_full_set`: on the full set of five entries of metric 7 a
candidate of metric 3 is discarded. -/
theorem topStep_on_full_set_witness :
    ∃ (i : Nat) (e : ProcessInfo ℚ), fullCPUSet[i]? = some e ∧
      (∀ e2 ∈ fullCPUSet, e.Percent ≤ e2.Percent) ∧
      (∀ j e2, j < i → fullCPUSet[j]? = some e2 → e.Percent < e2.Percent) ∧
      ((3 : ℚ) < e.Percent → topCPUStep fullCPUSet (mkProcess 9 3 3) = fullCPUSet) ∧
      (e.Percent ≤ (3 : ℚ) → topCPUStep fullCPUSet (mkProcess 9 3 3) = fullCPUSet.set i
        { Percent := 3, Pid := (mkProcess 9 3 3).Pid,
          User := (mkProcess 9 3 3).Username.getD "undifine",
          Name := (mkProcess 9 3 3).Name.getD "undifine",
          Cmd := (mkProcess 9 3 3).Cmdline.getD "undifine", Memory := 0 }) :=
  (topStep_on_full_set fullCPUSet (mkProcess 9 3 3) (by decide)).1 3 rfl

/-! ## The detailed percentages -/

theorem addUint64_of_lt {a b : Nat} (h : a + b < uint64Size) : addUint64 a b = a + b := by
  unfold addUint64
  exact Nat.mod_eq_of_lt h

theorem addUint64_eight (a b c d e f g h : Nat)
    (hlt : a + b + c + d + e + f + g + h < uint64Size) :
    addUint64 (addUint64 (addUint64 (addUint64 (addUint64 (addUint64 (addUint64 a b) c) d) e)
      f) g) h = a + b + c + d + e + f + g + h := by
  have h1 : addUint64 a b = a + b := addUint64_of_lt (by omega)
  have h2 : addUint64 (a + b) c = a + b + c := addUint64_of_lt (by omega)
  have h3 : addUint64 (a + b + c) d = a + b + c + d := addUint64_of_lt (by omega)
  have h4 : addUint64 (a + b + c + d) e = a + b + c + d + e := addUint64_of_lt (by omega)
  have h5 : addUint64 (a + b + c + d + e) f = a + b + c + d + e + f :=
    addUint64_of_lt (by omega)
  have h6 : addUint64 (a + b + c + d + e + f) g = a + b + c + d + e + f + g :=
    addUint64_of_lt (by omega)
  have h7 : addUint64 (a + b + c + d + e + f + g) h = a + b + c + d + e + f + g + h :=
    addUint64_of_lt hlt
  rw [h1, h2, h3, h4, h5, h6, h7]

/-- While the sum of the eight buckets stays below `2 ^ 64`, the `Total` that
`readAllCPUStat` builds is that sum. -/
theorem detailedStatOfFields_total (nums : List Nat)
    (h : (detailedStatOfFields nums).User + (detailedStatOfFields nums).Nice +
        (detailedStatOfFields nums).System + (detailedStatOfFields nums).Idle +
        (detailedStatOfFields nums).Iowait + (detailedStatOfFields nums).Irq +
        (detailedStatOfFields nums).Softirq + (detailedStatOfFields nums).Steal < uint64Size) :
    (detailedStatOfFields nums).Total =
      (detailedStatOfFields nums).User + (detailedStatOfFields nums).Nice +
        (detailedStatOfFields nums).System + (detailedStatOfFields nums).Idle +
        (detailedStatOfFields nums).Iowait + (detailedStatOfFields nums).Irq +
        (detailedStatOfFields nums).Softirq + (detailedStatOfFields nums).Steal := by
  simp only [detailedStatOfFields] at h ⊢
  exact addUint64_eight _ _ _ _ _ _ _ _ h

/-- A bucket of `calcCPUDetailedPercent` whose delta `a` is between 0 and the total delta
`t` shows a percentage between 0 and 100. -/
theorem bucket_percent_range (a t : ℚ) (ha : 0 ≤ a) (hat : a ≤ t) (ht : 0 < t) :
    0 ≤ a / t * 100 ∧ a / t * 100 ≤ 100 := by
  have h0 : 0 ≤ a / t := div_nonneg ha (le_of_lt ht)
  have h1 : a / t ≤ 1 := (div_le_one ht).mpr hat
  constructor <;> nlinarith

theorem bucket_percent_sum (a b c d e f g h t : ℚ) (ht : 0 < t)
    (hs : t = a + b + c + d + e + f + g + h) :
    a / t * 100 + b / t * 100 + c / t * 100 + d / t * 100 + e / t * 100 + f / t * 100 +
      g / t * 100 + h / t * 100 = 100 := by
  have hne : t ≠ 0 := ne_of_gt ht
  have h1 : a / t * 100 + b / t * 100 + c / t * 100 + d / t * 100 + e / t * 100 + f / t * 100 +
      g / t * 100 + h / t * 100 = (a + b + c + d + e + f + g + h) / t * 100 := by ring
  rw [h1, ← hs, div_self hne]
  norm_num

/-- C14: for `uint64` counters in which each of the eight buckets User, Nice, System, Idle,
Iowait, Irq, Softirq, Steal has `prev <= cur`, `Total` is the sum of the eight buckets, and
`cur.Total > prev.Total`, each of the eight percentages `calcCPUDetailedPercent` returns is
in `[0, 100]` and the eight sum to exactly 100. -/
theorem calcCPUDetailedPercent_sum_100 (prev cur : CPUDetailedStat)
    (_hprev : prev.WF) (hcur : cur.WF)
    (hUser : prev.User ≤ cur.User) (hNice : prev.Nice ≤ cur.Nice)
    (hSystem : prev.System ≤ cur.System) (hIdle : prev.Idle ≤ cur.Idle)
    (hIowait : prev.Iowait ≤ cur.Iowait) (hIrq : prev.Irq ≤ cur.Irq)
    (hSoftirq : prev.Softirq ≤ cur.Softirq) (hSteal : prev.Steal ≤ cur.Steal)
    (hprevTotal : prev.Total = prev.User + prev.Nice + prev.System + prev.Idle + prev.Iowait +
      prev.Irq + prev.Softirq + prev.Steal)
    (hcurTotal : cur.Total = cur.User + cur.Nice + cur.System + cur.Idle + cur.Iowait +
      cur.Irq + cur.Softirq + cur.Steal)
    (hgt : cur.Total > prev.Total) :
    (∀ x ∈ (calcCPUDetailedPercent prev cur).GetCPUDetailedPercent, 0 ≤ x ∧ x ≤ 100) ∧
      (calcCPUDetailedPercent prev cur).User + (calcCPUDetailedPercent prev cur).System +
        (calcCPUDetailedPercent prev cur).Nice + (calcCPUDetailedPercent prev cur).Idle +
        (calcCPUDetailedPercent prev cur).Iowait + (calcCPUDetailedPercent prev cur).Irq +
        (calcCPUDetailedPercent prev cur).Softirq + (calcCPUDetailedPercent prev cur).Steal =
        100 := by
  obtain ⟨cU, cN, cS, cI, cW, cQ, cF, cT, -, -, cTot⟩ := hcur
  have eU := subUint64_of_le cU hUser
  have eN := subUint64_of_le cN hNice
  have eS := subUint64_of_le cS hSystem
  have eI := subUint64_of_le cI hIdle
  have eW := subUint64_of_le cW hIowait
  have eQ := subUint64_of_le cQ hIrq
  have eF := subUint64_of_le cF hSoftirq
  have eT := subUint64_of_le cT hSteal
  have eTot := subUint64_of_le cTot (Nat.le_of_lt hgt)
  have hsum : cur.Total - prev.Total = (cur.User - prev.User) + (cur.Nice - prev.Nice) +
      (cur.System - prev.System) + (cur.Idle - prev.Idle) + (cur.Iowait - prev.Iowait) +
      (cur.Irq - prev.Irq) + (cur.Softirq - prev.Softirq) + (cur.Steal - prev.Steal) := by
    omega
  have hpos : 0 < cur.Total - prev.Total := Nat.sub_pos_of_lt hgt
  have hposQ : (0 : ℚ) < ((cur.Total - prev.Total : Nat) : ℚ) := by exact_mod_cast hpos
  have hsumQ : ((cur.Total - prev.Total : Nat) : ℚ) =
      ((cur.User - prev.User : Nat) : ℚ) + ((cur.Nice - prev.Nice : Nat) : ℚ) +
      ((cur.System - prev.System : Nat) : ℚ) + ((cur.Idle - prev.Idle : Nat) : ℚ) +
      ((cur.Iowait - prev.Iowait : Nat) : ℚ) + ((cur.Irq - prev.Irq : Nat) : ℚ) +
      ((cur.Softirq - prev.Softirq : Nat) : ℚ) + ((cur.Steal - prev.Steal : Nat) : ℚ) := by
    exact_mod_cast hsum
  have hval : calcCPUDetailedPercent prev cur =
      { User := ((cur.User - prev.User : Nat) : ℚ) / ((cur.Total - prev.Total : Nat) : ℚ) * 100
        System := ((cur.System - prev.System : Nat) : ℚ) / ((cur.Total - prev.Total : Nat) : ℚ) * 100
        Nice := ((cur.Nice - prev.Nice : Nat) : ℚ) / ((cur.Total - prev.Total : Nat) : ℚ) * 100
        Idle := ((cur.Idle - prev.Idle : Nat) : ℚ) / ((cur.Total - prev.Total : Nat) : ℚ) * 100
        Iowait := ((cur.Iowait - prev.Iowait : Nat) : ℚ) / ((cur.Total - prev.Total : Nat) : ℚ) * 100
        Irq := ((cur.Irq - prev.Irq : Nat) : ℚ) / ((cur.Total - prev.Total : Nat) : ℚ) * 100
        Softirq := ((cur.Softirq - prev.Softirq : Nat) : ℚ) / ((cur.Total - prev.Total : Nat) : ℚ) * 100
        Steal := ((cur.Steal - prev.Steal : Nat) : ℚ) / ((cur.Total - prev.Total : Nat) : ℚ) * 100 } := by
    unfold calcCPUDetailedPercent
    simp only [eU, eN, eS, eI, eW, eQ, eF, eT, eTot]
    rw [if_neg (not_le.mpr hposQ)]
  rw [hval]
  have nU : (0 : ℚ) ≤ ((cur.User - prev.User : Nat) : ℚ) := Nat.cast_nonneg _
  have nN : (0 : ℚ) ≤ ((cur.Nice - prev.Nice : Nat) : ℚ) := Nat.cast_nonneg _
  have nS : (0 : ℚ) ≤ ((cur.System - prev.System : Nat) : ℚ) := Nat.cast_nonneg _
  have nI : (0 : ℚ) ≤ ((cur.Idle - prev.Idle : Nat) : ℚ) := Nat.cast_nonneg _
  have nW : (0 : ℚ) ≤ ((cur.Iowait - prev.Iowait : Nat) : ℚ) := Nat.cast_nonneg _
  have nQ : (0 : ℚ) ≤ ((cur.Irq - prev.Irq : Nat) : ℚ) := Nat.cast_nonneg _
  have nF : (0 : ℚ) ≤ ((cur.Softirq - prev.Softirq : Nat) : ℚ) := Nat.cast_nonneg _
  have nT : (0 : ℚ) ≤ ((cur.Steal - prev.Steal : Nat) : ℚ) := Nat.cast_nonneg _
  constructor
  · intro x hx
    simp only [CPUDetailedPercent.GetCPUDetailedPercent, List.mem_cons, List.mem_singleton,
      List.mem_nil_iff, or_false] at hx
    rcases hx with h | h | h | h | h | h | h | h <;> rw [h] <;>
      exact bucket_percent_range _ _ (by assumption) (by linarith) hposQ
  · simp only
    apply bucket_percent_sum _ _ _ _ _ _ _ _ _ hposQ
    rw [hsumQ]
    ring

/-! ## The partition filter and getBaseInfo -/

/-- The library call `strings.Split(s, "/")` gives one more piece than `s` holds slashes. -/
theorem length_splitSlash (cs : List Char) : (splitSlash cs).length = cs.count '/' + 1 := by
  induction cs with
  | nil => rfl
  | cons c cs ih =>
    by_cases hc : c = '/'
    · subst hc
      simp [splitSlash, ih]
    · simp only [splitSlash, if_neg hc]
      rw [List.count_cons_of_ne (fun h => hc h.symm)]
      cases hs : splitSlash cs with
      | nil => rw [hs] at ih; simp at ih
      | cons piece pieces => rw [hs] at ih; simpa using ih

/-- A partition contributes a mount exactly when its type is not in `excludesType`, its
mount path is not in `excludes`, and `strings.Split` gives at most 10 pieces. -/
theorem mountOf_eq_some_iff (partition : PartitionStat) (mount : diskInfo) :
    mountOf partition = some mount ↔
      partition.Fstype ∉ excludesType ∧ partition.Mountpoint ∉ excludes ∧
        (splitSlash partition.Mountpoint.toList).length ≤ 10 ∧
        mount = { Typ := partition.Fstype, Device := partition.Device,
                  Mount := partition.Mountpoint } := by
  unfold mountOf filterStep
  by_cases h1 : partition.Fstype ∈ excludesType
  · rw [if_pos h1]
    constructor
    · intro h; cases h
    · intro h; exact absurd h1 h.1
  · by_cases h2 : partition.Mountpoint ∈ excludes
    · rw [if_neg h1, if_pos h2]
      constructor
      · intro h; cases h
      · intro h; exact absurd h2 h.2.1
    · by_cases h3 : (splitSlash partition.Mountpoint.toList).length > 10
      · rw [if_neg h1, if_neg h2, if_pos h3]
        constructor
        · intro h; cases h
        · intro h; exact absurd h.2.2.1 (by omega)
      · rw [if_neg h1, if_neg h2, if_neg h3]
        simp only [List.nil_append, Option.some.injEq]
        constructor
        · intro h
          exact ⟨h1, h2, by omega, h.symm⟩
        · intro h
          exact h.2.2.2.symm

/-- The depth check of the filter drops a partition that passes both deny-lists exactly
when its mount path holds at least 10 slashes. -/
theorem mountOf_eq_none_iff_count (partition : PartitionStat)
    (htype : partition.Fstype ∉ excludesType) (hpath : partition.Mountpoint ∉ excludes) :
    mountOf partition = none ↔ 10 ≤ partition.Mountpoint.toList.count '/' := by
  have hlen := length_splitSlash partition.Mountpoint.toList
  constructor
  · intro h
    by_contra hlt
    have hsome := (mountOf_eq_some_iff partition
      { Typ := partition.Fstype, Device := partition.Device, Mount := partition.Mountpoint }).mpr
      ⟨htype, hpath, by omega, rfl⟩
    rw [h] at hsome
    cases hsome
  · intro h
    cases hm : mountOf partition with
    | none => rfl
    | some mount =>
      have := ((mountOf_eq_some_iff partition mount).mp hm).2.2.1
      omega

theorem diskWorker_typ (mount : diskInfo) (outcome : UsageOutcome) :
    (diskWorker mount outcome).Typ = mount.Typ := by
  cases outcome <;> rfl

/-- Every record `loadDiskInfo` returns comes from a partition that passed the filter. -/
theorem mem_loadDiskInfo (partitions : List PartitionStat) (usage : Nat → UsageOutcome)
    (sched : List Nat) (r : DiskInfo) (hr : r ∈ loadDiskInfo (some partitions) usage sched) :
    ∃ p ∈ partitions, ∃ mount, mountOf p = some mount ∧ r.Typ = mount.Typ ∧
      r.Path = mount.Mount := by
  have h1 := (loadDiskInfo_perm partitions usage sched).subset hr
  rw [List.mem_mapIdx] at h1
  obtain ⟨i, hi, hri⟩ := h1
  have hall : ∀ m ∈ filterMounts partitions, ∃ p ∈ partitions, mountOf p = some m := by
    intro m hm
    unfold filterMounts at hm
    rw [foldl_filterStep_eq, List.nil_append, List.mem_filterMap] at hm
    exact hm
  obtain ⟨p, hp, hpm⟩ := hall _ (List.getElem_mem hi)
  refine ⟨p, hp, _, hpm, ?_, ?_⟩
  · rw [← hri]; exact diskWorker_typ _ _
  · rw [← hri]; exact diskWorker_path _ _

/-- C11 as stated fails: the partition mounted at `/run/user/1000` with the type
`fuse.portal` and the partition mounted at `/snap/core20/1234` with the type `squashfs`
are not excluded; `loadDiskInfo` returns a record for each, with a `Path` that begins with
the deny-listed `/run/user` and `/snap`. -/
theorem loadDiskInfo_keeps_nested_mount :
    (loadDiskInfo (some nestedPartitions) (fun _ => UsageOutcome.timeout) []).map DiskInfo.Path =
        ["/run/user/1000", "/snap/core20/1234"] ∧
      "/run/user" ∈ excludes ∧ "/run/user".toList <+: "/run/user/1000".toList ∧
      "/snap" ∈ excludes ∧ "/snap".toList <+: "/snap/core20/1234".toList := by
  decide

/-- C11, amended: for every partition list, no record `loadDiskInfo` returns has a
filesystem type in the deny-list `excludesType`, and no record has a `Path` equal to one of
the deny-listed mount paths of `excludes`; so a partition mounted at `/run/user` is
excluded.  The two partitions of `nestedPartitions`, mounted at `/run/user/1000` with the
type `fuse.portal` and at `/snap/core20/1234` with the type `squashfs`, are returned. -/
theorem loadDiskInfo_excludes (partitions : List PartitionStat) (usage : Nat → UsageOutcome)
    (sched : List Nat) (r : DiskInfo) (hr : r ∈ loadDiskInfo (some partitions) usage sched) :
    r.Typ ∉ excludesType ∧ r.Path ∉ excludes ∧ r.Path ≠ "/run/user" ∧
      (loadDiskInfo (some nestedPartitions) usage sched).map DiskInfo.Path =
        ["/run/user/1000", "/snap/core20/1234"] := by
  obtain ⟨p, -, mount, hpm, ht, hpath⟩ := mem_loadDiskInfo partitions usage sched r hr
  obtain ⟨h1, h2, -, hm⟩ := (mountOf_eq_some_iff p mount).mp hpm
  have hnot : r.Path ∉ excludes := by rw [hpath, hm]; exact h2
  refine ⟨?_, hnot, ?_, ?_⟩
  · rw [ht, hm]; exact h1
  · intro h
    apply hnot
    rw [h]
    decide
  · have hperm := ((loadDiskInfo_perm nestedPartitions usage sched).map DiskInfo.Path)
    rw [mapIdx_diskWorker_path] at hperm
    have hsorted : ((loadDiskInfo (some nestedPartitions) usage sched).map
        DiskInfo.Path).Sorted (· ≤ ·) := by
      unfold loadDiskInfo
      exact sortSlice_path_sorted _
    have hm2 : (filterMounts nestedPartitions).map diskInfo.Mount =
        ["/run/user/1000", "/snap/core20/1234"] := by decide
    rw [hm2] at hperm
    refine List.eq_of_perm_of_sorted hperm hsorted ?_
    unfold List.Sorted
    rw [List.pairwise_cons]
    refine ⟨?_, List.pairwise_singleton _ _⟩
    intro b hb
    rw [List.mem_singleton] at hb
    rw [hb, String.le_iff_toList_le]
    decide

/-- Witness of `loadDiskInfo_excludes`: of a root partition, a `tmpfs` and a partition
mounted at `/boot`, the record returned for the root is not deny-listed. -/
theorem loadDiskInfo_excludes_witness :
    ({ Path := "/", Typ := "ext4", Device := "sda2" } : DiskInfo).Typ ∉ excludesType ∧
      ({ Path := "/", Typ := "ext4", Device := "sda2" } : DiskInfo).Path ∉ excludes :=
  ⟨(loadDiskInfo_excludes
      [⟨"sda2", "/", "ext4"⟩, ⟨"tmpfs", "/run", "tmpfs"⟩, ⟨"sda1", "/boot", "ext4"⟩]
      (fun _ => UsageOutcome.timeout) [] { Path := "/", Typ := "ext4", Device := "sda2" }
      (by decide)).1,
   (loadDiskInfo_excludes
      [⟨"sda2", "/", "ext4"⟩, ⟨"tmpfs", "/run", "tmpfs"⟩, ⟨"sda1", "/boot", "ext4"⟩]
      (fun _ => UsageOutcome.timeout) [] { Path := "/", Typ := "ext4", Device := "sda2" }
      (by decide)).2.1⟩

/-- C13, at a mount path of depth 10: the mount path of `deepPartition` holds exactly 10
slashes, not more than 10, and passes both deny-lists, yet the depth check drops the
partition: `strings.Split` gives 11 pieces, and `len(...) > 10` holds from 10 slashes on. -/
theorem filterStep_drops_ten_slashes :
    deepPartition.Fstype ∉ excludesType ∧ deepPartition.Mountpoint ∉ excludes ∧
      deepPartition.Mountpoint.toList.count '/' = 10 ∧
      ¬ (deepPartition.Mountpoint.toList.count '/' > 10) ∧
      (splitSlash deepPartition.Mountpoint.toList).length = 11 ∧
      filterStep [] deepPartition = [] ∧
      loadDiskInfo (some [deepPartition]) (fun _ => UsageOutcome.timeout) [] = [] := by
  decide

/-- With the host-info query answered, `getBaseInfo` panics exactly when the CPU-info query
fails or answers with an empty list. -/
theorem getBaseInfo_panicked_iff {CI : Type} (env : BaseEnv CI) (hostInfo : HostInfoStat)
    (hhost : env.hostInfo = some hostInfo) :
    getBaseInfo env = BaseResult.panicked ↔ env.cpuInfo = none ∨ env.cpuInfo = some [] := by
  unfold getBaseInfo
  rw [hhost]
  cases hc : env.cpuInfo with
  | none => simp
  | some cpuInfo =>
    cases cpuInfo with
    | nil => simp
    | cons first others => simp

/-- With the host-info query answered and a CPU-info list that is not empty, `getBaseInfo`
returns a `BaseInfo` whose model name and frequency are those of the first entry. -/
theorem getBaseInfo_of_cpu_info {CI : Type} (env : BaseEnv CI) (hostInfo : HostInfoStat)
    (first : CPUInfoStat) (others : List CPUInfoStat)
    (hhost : env.hostInfo = some hostInfo) (hcpu : env.cpuInfo = some (first :: others)) :
    ∃ bi, getBaseInfo env = BaseResult.returned bi ∧ bi.CPUModelName = first.ModelName ∧
      bi.CPUMhz = first.Mhz ∧ bi.CurrentInfo = some env.currentInfo := by
  unfold getBaseInfo
  rw [hhost, hcpu]
  simp

/-- C12, at a CPU-info query that fails: in an environment where the host-info query
succeeds, `getBaseInfo` does not return when `GetCPUInfo` returns an error, nor when it
returns an empty list: the unguarded `cpuInfo[0].Mhz` is an index out of range and the
call panics.  With one entry in the list the call returns. -/
theorem getBaseInfo_panics_without_cpu_info :
    (baseEnvWith none).hostInfo ≠ none ∧
      getBaseInfo (baseEnvWith none) = BaseResult.panicked ∧
      getBaseInfo (baseEnvWith (some [])) = BaseResult.panicked ∧
      getBaseInfo (baseEnvWith (some [⟨"Xeon", 2400⟩])) ≠ BaseResult.panicked := by
  decide

/-- Witness of `calcCPUDetailedPercent_sum_100`: between two readings of `/proc/stat` as
`readAllCPUStat` builds them, the eight percentages sum to 100. -/
theorem calcCPUDetailedPercent_sum_100_witness :
    (calcCPUDetailedPercent procStatPrev procStatCur).User +
        (calcCPUDetailedPercent procStatPrev procStatCur).System +
        (calcCPUDetailedPercent procStatPrev procStatCur).Nice +
        (calcCPUDetailedPercent procStatPrev procStatCur).Idle +
        (calcCPUDetailedPercent procStatPrev procStatCur).Iowait +
        (calcCPUDetailedPercent procStatPrev procStatCur).Irq +
        (calcCPUDetailedPercent procStatPrev procStatCur).Softirq +
        (calcCPUDetailedPercent procStatPrev procStatCur).Steal = 100 :=
  (calcCPUDetailedPercent_sum_100 procStatPrev procStatCur (by decide) (by decide)
    (by decide) (by decide) (by decide) (by decide) (by decide) (by decide) (by decide)
    (by decide) (by decide) (by decide) (by decide)).2

end Hoststat
